import Mathlib

/-!
Verification of the agentic review loop of the Code_Review_Agent repository
(src/agent_reviewer.py with src/github_integration.py), as a shallow
embedding in Lean.

Modelling conventions:
* Python dicts that are used as string-keyed mappings (changed_files,
  related_files, JSON objects) are association lists with Python-dict
  semantics: assignment to an existing key replaces the value in place,
  assignment to a fresh key appends, so insertion order is preserved.
* JSON values are the inductive JValue; json.loads is modelled by the
  executable parser jsonLoads (strict grammar: full string must parse,
  leading-zero numbers rejected, as in Python's json module).
* The regular-expression searches re.search applied to the patterns that
  match from a square bracket (resp. brace) over [\s\S]* to a closing
  bracket (resp. brace) are modelled by extractBracketSpan: the match, when
  it exists, runs from the first opening character that has a closing
  character after it to the last closing character of the text.
* The LLM (decision oracle / analysis oracle) and the GitHub client are
  external collaborators (spec sections 1 and 6); their responses are
  fields of an Env record the theorems quantify over.  The per-file
  analysis oracle of review_code is modelled as a function of the reviewed
  filename, the only prompt component that varies inside one invocation.
* json.dumps is modelled without the indent=2 whitespace (jdump); no claim
  inspects whitespace of result strings.
-/

/-- Left brace character, written numerically. -/
def lbrace : Char := Char.ofNat 123

/-- Right brace character, written numerically. -/
def rbrace : Char := Char.ofNat 125

/-! ## Association lists with Python-dict semantics -/

/-- Does the dict have the key? (Python: k in d) -/
def alistHas {α : Type} (d : List (String × α)) (k : String) : Bool :=
  d.any (fun p => p.1 == k)

/-- Python dict assignment d[k] = v: replace in place, or append a fresh key. -/
def alistInsert {α : Type} (d : List (String × α)) (k : String) (v : α) :
    List (String × α) :=
  if alistHas d k then d.map (fun p => if p.1 == k then (k, v) else p)
  else d ++ [(k, v)]

/-- Python d.get(k): first binding (keys are unique by construction). -/
def alistGet {α : Type} : List (String × α) → String → Option α
  | [], _ => none
  | p :: rest, k => if p.1 == k then some p.2 else alistGet rest k

/-- Python d.get(k, dflt). -/
def alistGetD {α : Type} (d : List (String × α)) (k : String) (dflt : α) : α :=
  (alistGet d k).getD dflt

/-- Key list in insertion order. -/
def alistKeys {α : Type} (d : List (String × α)) : List String :=
  d.map Prod.fst

/-! ## JSON values and the json.loads model -/

/-- JSON values as produced by json.loads.  Numbers keep their validated
lexeme; objects are association lists with unique keys (duplicates collapse,
last value wins, first position kept, as in Python). -/
inductive JValue where
  | null : JValue
  | bool : Bool → JValue
  | num : String → JValue
  | str : String → JValue
  | arr : List JValue → JValue
  | obj : List (String × JValue) → JValue
  deriving Repr, BEq, Inhabited

/-- JSON whitespace. -/
def isJsonWs (c : Char) : Bool :=
  c == ' ' || c == '\t' || c == '\n' || c == '\r'

/-- Skip JSON whitespace. -/
def skipWs (cs : List Char) : List Char :=
  cs.dropWhile isJsonWs

/-- Decimal digit test. -/
def isDig (c : Char) : Bool := '0' ≤ c && c ≤ '9'

/-- Hex digit value. -/
def hexVal (c : Char) : Option Nat :=
  let n := c.toNat
  if 48 ≤ n ∧ n ≤ 57 then some (n - 48)
  else if 97 ≤ n ∧ n ≤ 102 then some (n - 87)
  else if 65 ≤ n ∧ n ≤ 70 then some (n - 55)
  else none

/-- Single-character JSON string escapes. -/
def escChar : Char → Option Char
  | '"' => some '"'
  | '\\' => some '\\'
  | '/' => some '/'
  | 'b' => some (Char.ofNat 8)
  | 'f' => some (Char.ofNat 12)
  | 'n' => some '\n'
  | 'r' => some '\r'
  | 't' => some '\t'
  | _ => none

/-- JSON string body (after the opening quote), accumulator-passing. -/
def parseStrAux : Nat → List Char → List Char → Option (String × List Char)
  | 0, _, _ => none
  | _ + 1, _, [] => none
  | fuel + 1, acc, c :: rest =>
    if c == '"' then some (String.mk acc.reverse, rest)
    else if c == '\\' then
      match rest with
      | [] => none
      | e :: rest2 =>
        if e == 'u' then
          match rest2 with
          | h1 :: h2 :: h3 :: h4 :: rest3 =>
            match hexVal h1, hexVal h2, hexVal h3, hexVal h4 with
            | some a, some b, some c2, some d =>
              parseStrAux fuel (Char.ofNat (((a * 16 + b) * 16 + c2) * 16 + d) :: acc) rest3
            | _, _, _, _ => none
          | _ => none
        else
          match escChar e with
          | some ec => parseStrAux fuel (ec :: acc) rest2
          | none => none
    else if c.toNat < 32 then none
    else parseStrAux fuel (c :: acc) rest

/-- JSON number lexeme: optional sign, integer part (no leading zeros),
optional fraction, optional exponent.  Returns the lexeme and the rest. -/
def lexNumber (cs : List Char) : Option (String × List Char) :=
  let (sign, cs1) :=
    match cs with
    | '-' :: r => (['-'], r)
    | _ => (([] : List Char), cs)
  let intPart := cs1.takeWhile isDig
  let cs2 := cs1.dropWhile isDig
  if intPart.isEmpty then none
  else if intPart.length > 1 && intPart.headD '0' == '0' then none
  else
    let (fracPart, cs3) :=
      match cs2 with
      | '.' :: r =>
        let ds := r.takeWhile isDig
        if ds.isEmpty then (none, cs2) else (some ('.' :: ds), r.dropWhile isDig)
      | _ => ((none : Option (List Char)), cs2)
    match fracPart with
    | none =>
      match cs2 with
      | '.' :: _ => none
      | _ =>
        match lexExp cs2 with
        | none => none
        | some (ex, cs4) => some (String.mk (sign ++ intPart ++ ex), cs4)
    | some fp =>
      match lexExp cs3 with
      | none => none
      | some (ex, cs4) => some (String.mk (sign ++ intPart ++ fp ++ ex), cs4)
where
  /-- Optional exponent part; fails only on a malformed exponent. -/
  lexExp (cs : List Char) : Option (List Char × List Char) :=
    match cs with
    | 'e' :: r => lexExpSign 'e' r
    | 'E' :: r => lexExpSign 'E' r
    | _ => some ([], cs)
  /-- Exponent after the e/E marker. -/
  lexExpSign (m : Char) (r : List Char) : Option (List Char × List Char) :=
    let (sg, r2) :=
      match r with
      | '+' :: t => (['+'], t)
      | '-' :: t => (['-'], t)
      | _ => (([] : List Char), r)
    let ds := r2.takeWhile isDig
    if ds.isEmpty then none
    else some (m :: (sg ++ ds), r2.dropWhile isDig)

mutual

/-- Parse one JSON value (after any leading whitespace is consumed here). -/
def parseVal : Nat → List Char → Option (JValue × List Char)
  | 0, _ => none
  | fuel + 1, cs =>
    match skipWs cs with
    | [] => none
    | c :: rest =>
      if c == '"' then
        match parseStrAux (rest.length + 1) [] rest with
        | some (s, r) => some (JValue.str s, r)
        | none => none
      else if c == '[' then
        match skipWs rest with
        | ']' :: r2 => some (JValue.arr [], r2)
        | _ => parseArrLoop fuel rest []
      else if c == lbrace then
        match skipWs rest with
        | x :: r2 =>
          if x == rbrace then some (JValue.obj [], r2)
          else parseObjLoop fuel rest []
        | [] => none
      else if c == 't' then
        match rest with
        | 'r' :: 'u' :: 'e' :: r => some (JValue.bool true, r)
        | _ => none
      else if c == 'f' then
        match rest with
        | 'a' :: 'l' :: 's' :: 'e' :: r => some (JValue.bool false, r)
        | _ => none
      else if c == 'n' then
        match rest with
        | 'u' :: 'l' :: 'l' :: r => some (JValue.null, r)
        | _ => none
      else if c == '-' || isDig c then
        match lexNumber (c :: rest) with
        | some (lx, r) => some (JValue.num lx, r)
        | none => none
      else none

/-- Array elements after the opening bracket (nonempty case). -/
def parseArrLoop : Nat → List Char → List JValue → Option (JValue × List Char)
  | 0, _, _ => none
  | fuel + 1, cs, acc =>
    match parseVal fuel cs with
    | none => none
    | some (v, r) =>
      match skipWs r with
      | ',' :: r2 => parseArrLoop fuel r2 (acc ++ [v])
      | ']' :: r2 => some (JValue.arr (acc ++ [v]), r2)
      | _ => none

/-- Object members after the opening brace (nonempty case). -/
def parseObjLoop : Nat → List Char → List (String × JValue) →
    Option (JValue × List Char)
  | 0, _, _ => none
  | fuel + 1, cs, acc =>
    match skipWs cs with
    | '"' :: r =>
      match parseStrAux (r.length + 1) [] r with
      | none => none
      | some (k, r2) =>
        match skipWs r2 with
        | ':' :: r3 =>
          match parseVal fuel r3 with
          | none => none
          | some (v, r4) =>
            let acc2 := alistInsert acc k v
            match skipWs r4 with
            | ',' :: r5 => parseObjLoop fuel r5 acc2
            | x :: r5 =>
              if x == rbrace then some (JValue.obj acc2, r5) else none
            | [] => none
        | _ => none
    | _ => none

end

/-- Model of Python json.loads: parse the whole string (surrounding
whitespace allowed); return none where json.loads raises. -/
def jsonLoads (s : String) : Option JValue :=
  let cs := s.toList
  match parseVal (4 * cs.length + 16) cs with
  | some (v, r) => if skipWs r = [] then some v else none
  | none => none

/-- Escapes applied by json.dumps to string content (ASCII subset used by
the program's own result strings). -/
def jescapeChar (c : Char) : String :=
  if c == '"' then "\\\""
  else if c == '\\' then "\\\\"
  else if c == '\n' then "\\n"
  else if c == '\t' then "\\t"
  else if c == '\r' then "\\r"
  else String.mk [c]

/-- String-content escaping for jdump. -/
def jescape (s : String) : String :=
  String.join (s.toList.map jescapeChar)

mutual

/-- Model of json.dumps (without indentation whitespace). -/
def jdump : JValue → String
  | JValue.null => "null"
  | JValue.bool true => "true"
  | JValue.bool false => "false"
  | JValue.num lx => lx
  | JValue.str s => "\"" ++ jescape s ++ "\""
  | JValue.arr xs => "[" ++ jdumpArr xs ++ "]"
  | JValue.obj fs => "\x7b" ++ jdumpObj fs ++ "\x7d"

/-- Comma-separated array elements. -/
def jdumpArr : List JValue → String
  | [] => ""
  | [x] => jdump x
  | x :: y :: xs => jdump x ++ ", " ++ jdumpArr (y :: xs)

/-- Comma-separated object members. -/
def jdumpObj : List (String × JValue) → String
  | [] => ""
  | [(k, v)] => "\"" ++ jescape k ++ "\": " ++ jdump v
  | (k, v) :: y :: fs =>
    "\"" ++ jescape k ++ "\": " ++ jdump v ++ ", " ++ jdumpObj (y :: fs)

end

/-! ## The bracket-span extraction used on oracle responses -/

/-- Model of re.search over the greedy pattern that matches from an opening
character across anything to a closing character: the match, when it exists,
spans from the first opening character that has a closing character somewhere
after it to the last closing character of the text. -/
def extractSpanList (openC closeC : Char) (cs : List Char) : Option (List Char) :=
  let rest := cs.dropWhile (fun c => !(c == openC))
  match rest with
  | [] => none
  | _ :: _ =>
    let revTail := rest.reverse.dropWhile (fun c => !(c == closeC))
    match revTail with
    | [] => none
    | _ :: _ => some revTail.reverse

/-- The same match at the string level. -/
def extractBracketSpan (openC closeC : Char) (s : String) : Option String :=
  (extractSpanList openC closeC s.toList).map String.mk

/-- The array-shaped extraction of tool_review_code. -/
def extractArraySpan (s : String) : Option String :=
  extractBracketSpan '[' ']' s

/-- The object-shaped extraction of tool_self_critique. -/
def extractObjSpan (s : String) : Option String :=
  extractBracketSpan lbrace rbrace s

/-! ## Small Python helpers -/

/-- len(content.split(newline)). -/
def countLines (s : String) : Nat :=
  s.toList.count '\n' + 1

/-- Extension as computed by os.path.splitext: the suffix of the final path
component from its last dot, where leading dots of the component do not
start an extension. -/
def splitextExt (name : String) : String :=
  let base := (name.toList.reverse.takeWhile (fun c => !(c == '/'))).reverse
  let rest := base.dropWhile (fun c => c == '.')
  let extRev := rest.reverse.takeWhile (fun c => !(c == '.'))
  if extRev.length == rest.length then ""
  else String.mk ('.' :: extRev.reverse)

/-- Is the mantissa of a JSON number lexeme all zero digits? -/
def numIsZero (lx : String) : Bool :=
  (lx.toList.takeWhile (fun c => !(c == 'e' || c == 'E'))).all
    (fun c => !('1' ≤ c && c ≤ '9'))

/-- Python equality on scalar JSON values (None, bool, number, string);
the executor compares JSON values only where they are guaranteed scalar:
dict keys already checked hashable, and value == "error" comparisons
(Python == on a non-scalar against a string is False).  Number equality is
lexeme equality (no claim compares distinct numeric spellings). -/
def jScalarEq (a b : JValue) : Bool :=
  match a, b with
  | JValue.null, JValue.null => true
  | JValue.bool x, JValue.bool y => x == y
  | JValue.num x, JValue.num y => x == y
  | JValue.str x, JValue.str y => x == y
  | _, _ => false

/-- Python truthiness of a JSON value (bool(v) is False). -/
def pyFalsy : JValue → Bool
  | JValue.null => true
  | JValue.bool b => !b
  | JValue.num lx => numIsZero lx
  | JValue.str s => s == ""
  | JValue.arr xs => xs.isEmpty
  | JValue.obj fs => fs.isEmpty

/-! ## Repository data model (src/agent_reviewer.py, src/code_reviewer.py) -/

/-- One entry of GitHubClient.get_pr_files(). -/
structure PRFile where
  filename : String
  additions : Nat
  deletions : Nat
  status : String
  deriving Repr, BEq

/-- One entry of GitHubClient.get_pr_file_contents(python_only=False):
filename, full content and status of a PR-changed file. -/
structure FileContent where
  filename : String
  content : String
  status : String
  deriving Repr, BEq

/-- The fields of GitHubClient.get_pr_info() that the executor reads. -/
structure PRInfo where
  title : String
  body : Option String
  userLogin : String
  labels : List String
  baseRef : String
  baseSha : String
  headRef : String
  draft : Bool
  deriving Repr, BEq

/-- The context dict stored by tool_analyze_pr_context. -/
structure PRContext where
  title : String
  description : String
  author : String
  labels : List String
  baseBranch : String
  headBranch : String
  fileCount : Nat
  fileTypes : List (String × Nat)
  totalAdditions : Nat
  totalDeletions : Nat
  filesChanged : List String
  isDraft : Bool
  deriving Repr, BEq

/-- code_reviewer.ReviewFinding.  The executor fills the fields with raw
values pulled out of JSON finding dicts (f.get with defaults), so every
field is modelled as a JSON value. -/
structure ReviewFinding where
  file : JValue
  line : JValue
  severity : JValue
  category : JValue
  message : JValue
  suggestion : JValue
  deriving Repr, BEq

/-- code_reviewer.ReviewResult (file key of the files_findings grouping,
its findings, and the shared summary). -/
structure ReviewResult where
  file : JValue
  findings : List ReviewFinding
  summary : String
  deriving Repr, BEq

/-- An inline comment dict built by github_integration.build_inline_comments. -/
structure InlineComment where
  path : String
  line : JValue
  body : String
  deriving Repr, BEq

/-- What post_review_to_github actually sent to GitHub: a structured PR
review, or (on the fallback path) a plain issue comment. -/
inductive Published where
  | review (body event : String) (comments : Option (List InlineComment))
  | comment (body : String)
  deriving Repr, BEq

/-- The dict returned by post_review_to_github, plus the published action. -/
structure PostOutcome where
  success : Bool
  inlineComments : Nat
  fallback : Bool
  published : Published
  deriving Repr, BEq

/-- AgentState of src/agent_reviewer.py. -/
structure AgentState where
  prContext : Option PRContext := none
  changedFiles : List (String × String) := []
  relatedFiles : List (String × String) := []
  findings : JValue := JValue.arr []
  reviewPosted : Bool := false
  iteration : Nat := 0
  maxIterations : Nat := 10
  reasoningTrace : List (Nat × String) := []
  deriving Repr, BEq

/-- AgentState.add_reasoning: append a trace entry tagged with the current
iteration. -/
def addReasoning (st : AgentState) (thought : String) : AgentState :=
  { st with reasoningTrace := st.reasoningTrace ++ [(st.iteration, thought)] }

/-- The schema-typed argument object of a tool call; an absent optional
field is none.  findings is kept as a raw JSON value, since the oracle
supplies arbitrary finding objects there. -/
structure ToolInput where
  fileTypes : Option (List String) := none
  filePaths : Option (List String) := none
  reason : Option String := none
  files : Option (List String) := none
  focusAreas : Option (List String) := none
  context : Option String := none
  findings : Option JValue := none
  criteria : Option String := none
  summary : Option String := none
  recommendation : Option String := none
  deriving Repr, BEq

/-- The external collaborators (spec sections 1 and 6): the GitHub client
and the LLM oracles, together with the two pure formatting helpers of
github_integration whose internals no claim depends on (quantifying over
them makes every theorem hold for the real ones). -/
structure Env where
  prInfo : PRInfo
  prFiles : List PRFile
  prFileContents : List FileContent
  getFileContent : String → String → Except String String
  reviewOracle : String → Except String String
  critiqueOracle : Except String String
  formatReviewBody : List ReviewResult → String
  buildInlineComments : List ReviewResult → List InlineComment
  createReview : String → String → Option (List InlineComment) → Except String Unit
  createIssueComment : String → Except String Unit

/-- A tool body: it may raise (Except.error carries the exception text and
the state as mutated up to the raise) or return a result string and the new
state.  Python state mutation before a raise persists, hence the state on
both sides. -/
def ToolFn : Type :=
  Env → ToolInput → AgentState → Except (String × AgentState) (String × AgentState)

/-! ## Tool implementations (AgentToolExecutor) -/

/-- The file-type histogram of tool_analyze_pr_context. -/
def fileTypeHistogram (files : List PRFile) : List (String × Nat) :=
  files.foldl
    (fun d f =>
      let ext0 := splitextExt f.filename
      let ext := if ext0 == "" then "no_extension" else ext0
      alistInsert d ext (alistGetD d ext 0 + 1))
    []

/-- The context dict built by tool_analyze_pr_context. -/
def prContextOf (info : PRInfo) (files : List PRFile) : PRContext :=
  { title := info.title
    description :=
      match info.body with
      | some s => if s == "" then "(no description)" else s
      | none => "(no description)"
    author := info.userLogin
    labels := info.labels
    baseBranch := info.baseRef
    headBranch := info.headRef
    fileCount := files.length
    fileTypes := fileTypeHistogram files
    totalAdditions := (files.map (fun f => f.additions)).sum
    totalDeletions := (files.map (fun f => f.deletions)).sum
    filesChanged := files.map (fun f => f.filename)
    isDraft := info.draft }

/-- JSON image of the context dict (key order of the source literal). -/
def contextJson (c : PRContext) : JValue :=
  JValue.obj
    [("title", JValue.str c.title),
     ("description", JValue.str c.description),
     ("author", JValue.str c.author),
     ("labels", JValue.arr (c.labels.map JValue.str)),
     ("base_branch", JValue.str c.baseBranch),
     ("head_branch", JValue.str c.headBranch),
     ("file_count", JValue.num (toString c.fileCount)),
     ("file_types", JValue.obj (c.fileTypes.map (fun p => (p.1, JValue.num (toString p.2))))),
     ("total_additions", JValue.num (toString c.totalAdditions)),
     ("total_deletions", JValue.num (toString c.totalDeletions)),
     ("files_changed", JValue.arr (c.filesChanged.map JValue.str)),
     ("is_draft", JValue.bool c.isDraft)]

/-- tool_analyze_pr_context. -/
def toolAnalyzePrContext : ToolFn := fun env _ st =>
  let ctx := prContextOf env.prInfo env.prFiles
  Except.ok (jdump (contextJson ctx), { st with prContext := some ctx })

/-- The fetch loop of tool_fetch_changed_files: keep files passing the
extension filter (an empty filter list is falsy, so it skips nothing),
store their content into changed_files, and record a fetched entry. -/
def fetchChangedLoop (fileTypes : List String) :
    List FileContent → AgentState → List JValue → AgentState × List JValue
  | [], st, fetched => (st, fetched)
  | f :: rest, st, fetched =>
    let ext := splitextExt f.filename
    if !fileTypes.isEmpty && !fileTypes.contains ext then
      fetchChangedLoop fileTypes rest st fetched
    else
      let st2 := { st with changedFiles := alistInsert st.changedFiles f.filename f.content }
      let entry := JValue.obj
        [("filename", JValue.str f.filename),
         ("lines", JValue.num (toString (countLines f.content))),
         ("status", JValue.str f.status)]
      fetchChangedLoop fileTypes rest st2 (fetched ++ [entry])

/-- tool_fetch_changed_files.  An omitted file_types argument defaults to
the singleton [".py"] (input.get("file_types", [".py"])). -/
def toolFetchChangedFiles : ToolFn := fun env input st =>
  let fileTypes := input.fileTypes.getD [".py"]
  let (st2, fetched) := fetchChangedLoop fileTypes env.prFileContents st []
  Except.ok
    (jdump (JValue.obj
      [("fetched_count", JValue.num (toString fetched.length)),
       ("files", JValue.arr fetched)]),
     st2)

/-- The per-path fetched entry of tool_fetch_related_files, as a function
of the collaborator's answer for that path alone. -/
def relatedEntry (env : Env) (baseSha path : String) : JValue :=
  match env.getFileContent path baseSha with
  | Except.ok content =>
    JValue.obj [("path", JValue.str path), ("lines", JValue.num (toString (countLines content)))]
  | Except.error e =>
    JValue.obj [("path", JValue.str path), ("error", JValue.str e)]

/-- The per-path loop of tool_fetch_related_files: a success is stored into
related_files, a failure is recorded as an error entry, and the loop always
continues. -/
def fetchRelatedLoop (env : Env) (baseSha : String) :
    List String → AgentState → List JValue → AgentState × List JValue
  | [], st, fetched => (st, fetched)
  | p :: rest, st, fetched =>
    match env.getFileContent p baseSha with
    | Except.ok content =>
      let st2 := { st with relatedFiles := alistInsert st.relatedFiles p content }
      let entry := JValue.obj
        [("path", JValue.str p), ("lines", JValue.num (toString (countLines content)))]
      fetchRelatedLoop env baseSha rest st2 (fetched ++ [entry])
    | Except.error e =>
      let entry := JValue.obj [("path", JValue.str p), ("error", JValue.str e)]
      fetchRelatedLoop env baseSha rest st (fetched ++ [entry])

/-- tool_fetch_related_files. -/
def toolFetchRelatedFiles : ToolFn := fun env input st =>
  let filePaths := input.filePaths.getD []
  let reason := input.reason.getD ""
  let st1 := addReasoning st ("Fetching related files: " ++ reason)
  let baseSha := env.prInfo.baseSha
  let (st2, fetched) := fetchRelatedLoop env baseSha filePaths st1 []
  Except.ok (jdump (JValue.obj [("fetched", JValue.arr fetched)]), st2)

/-- The stamping loop of tool_review_code over the decoded findings array:
each dict element gets file = filename and is collected; a non-dict element
raises (TypeError on the item assignment), which the per-file handler turns
into a parse-error trace entry — elements collected before the raise are
kept, matching the Python append-then-raise order. -/
def stampElems (filename : String) : List JValue → List JValue × Bool
  | [] => ([], false)
  | JValue.obj fs :: rest =>
    let (s, e) := stampElems filename rest
    (JValue.obj (alistInsert fs "file" (JValue.str filename)) :: s, e)
  | _ :: _ => ([], true)

/-- Decoding of one per-file oracle response in tool_review_code: extract
the bracket span, json.loads it, and stamp the elements.  The Bool is true
when the except branch ran (a trace entry is logged); an absent bracket
match yields nothing silently.  A decoded non-array value makes the Python
for-loop raise on its first item (TypeError on the item assignment) except
when it is empty (empty dict or empty string), where the loop body never
runs. -/
def parseReviewResponse (filename text : String) : List JValue × Bool :=
  match extractArraySpan text with
  | none => ([], false)
  | some span =>
    match jsonLoads span with
    | none => ([], true)
    | some (JValue.arr elems) => stampElems filename elems
    | some (JValue.obj fs) => if fs.isEmpty then ([], false) else ([], true)
    | some (JValue.str s) => if s == "" then ([], false) else ([], true)
    | some _ => ([], true)

/-- The per-file loop of tool_review_code: skip files not in changed_files,
call the analysis oracle, decode and stamp; an oracle exception (the API
call sits outside the per-file try) aborts the whole tool with the findings
collected so far discarded, while trace entries already logged persist. -/
def reviewFiles (env : Env) :
    List String → AgentState → List JValue →
    Except (String × AgentState) (AgentState × List JValue)
  | [], st, acc => Except.ok (st, acc)
  | fn :: rest, st, acc =>
    if alistHas st.changedFiles fn then
      match env.reviewOracle fn with
      | Except.error e => Except.error (e, st)
      | Except.ok text =>
        let (fs, errored) := parseReviewResponse fn text
        let st2 := if errored then addReasoning st ("Error parsing review for " ++ fn) else st
        reviewFiles env rest st2 (acc ++ fs)
    else reviewFiles env rest st acc

/-- tool_review_code.  focus_areas and context only shape the prompt text,
which is absorbed into the oracle model. -/
def toolReviewCode : ToolFn := fun env input st =>
  let filesToReview := input.files.getD (alistKeys st.changedFiles)
  let focusAreas := input.focusAreas.getD ["correctness", "maintainability"]
  let context := input.context.getD ""
  match reviewFiles env filesToReview st [] with
  | Except.error es => Except.error es
  | Except.ok (st2, allFindings) =>
    match st2.findings with
    | JValue.arr xs =>
      Except.ok
        (jdump (JValue.obj
          [("findings_count", JValue.num (toString allFindings.length)),
           ("findings", JValue.arr allFindings)]),
         { st2 with findings := JValue.arr (xs ++ allFindings) })
    | _ => Except.error ("AttributeError: findings has no attribute extend", st2)

/-- The fallback result string of tool_self_critique when the critique
response could not be parsed. -/
def critiqueFallback (findings : JValue) : String :=
  jdump (JValue.obj
    [("filtered_findings", findings), ("error", JValue.str "Could not parse critique")])

/-- tool_self_critique.  Empty (falsy) findings return early; the critique
oracle response goes through brace-span extraction and json.loads; on a
parsed object the state findings are replaced by filtered_findings (with
the critiqued findings themselves as the .get default); any failure keeps
the state findings and returns the fallback result, with a trace entry
exactly when the except branch ran (json.loads raised). -/
def toolSelfCritique : ToolFn := fun env input st =>
  let findings := input.findings.getD st.findings
  let criteria := input.criteria.getD "actionable, specific, and important"
  if pyFalsy findings then
    Except.ok
      (jdump (JValue.obj [("filtered_findings", JValue.arr []), ("removed_count", JValue.num "0")]), st)
  else
    match env.critiqueOracle with
    | Except.error e => Except.error (e, st)
    | Except.ok text =>
      match extractObjSpan text with
      | none => Except.ok (critiqueFallback findings, st)
      | some span =>
        match jsonLoads span with
        | none => Except.ok (critiqueFallback findings, addReasoning st "Error in self-critique")
        | some (JValue.obj fs) =>
          Except.ok
            (jdump (JValue.obj fs),
             { st with findings := alistGetD fs "filtered_findings" findings })
        | some _ =>
          Except.ok (critiqueFallback findings, addReasoning st "Error in self-critique")

/-- Iterating the raw findings value of tool_post_review: only a list whose
elements are all dicts survives the loop; an empty dict or empty string
iterates zero times; everything else raises on iteration or on f.get. -/
def pyFindingObjs : JValue → Except String (List (List (String × JValue)))
  | JValue.arr xs => objsOf xs
  | JValue.obj [] => Except.ok []
  | JValue.str "" => Except.ok []
  | _ => Except.error "TypeError: findings is not iterable as findings"
where
  /-- Every element must be a dict; the first non-dict raises. -/
  objsOf : List JValue → Except String (List (List (String × JValue)))
    | [] => Except.ok []
    | JValue.obj fs :: rest => (objsOf rest).map (fun l => fs :: l)
    | _ :: _ => Except.error "AttributeError: finding has no attribute get"

/-- The ReviewFinding built from one raw finding dict in tool_post_review. -/
def rawFinding (fs : List (String × JValue)) : ReviewFinding :=
  { file := alistGetD fs "file" (JValue.str "unknown")
    line := alistGetD fs "line" JValue.null
    severity := alistGetD fs "severity" (JValue.str "info")
    category := alistGetD fs "category" (JValue.str "general")
    message := alistGetD fs "message" (JValue.str "")
    suggestion := alistGetD fs "suggestion" JValue.null }

/-- Can the value be a dict key? (lists and dicts are unhashable). -/
def jHashable : JValue → Bool
  | JValue.arr _ => false
  | JValue.obj _ => false
  | _ => true

/-- files_findings[filename].append(...) with dict insertion order. -/
def groupAdd (groups : List (JValue × List ReviewFinding)) (k : JValue)
    (rf : ReviewFinding) : List (JValue × List ReviewFinding) :=
  if groups.any (fun p => jScalarEq p.1 k) then
    groups.map (fun p => if jScalarEq p.1 k then (p.1, p.2 ++ [rf]) else p)
  else groups ++ [(k, [rf])]

/-- The grouping loop of tool_post_review. -/
def groupFindings (groups : List (JValue × List ReviewFinding)) :
    List (List (String × JValue)) →
    Except String (List (JValue × List ReviewFinding))
  | [] => Except.ok groups
  | fs :: rest =>
    let k := alistGetD fs "file" (JValue.str "unknown")
    if jHashable k then groupFindings (groupAdd groups k (rawFinding fs)) rest
    else Except.error "TypeError: unhashable type"

/-- The review_results list of tool_post_review. -/
def buildReviewResults (summary : String) (objs : List (List (String × JValue))) :
    Except String (List ReviewResult) :=
  (groupFindings [] objs).map
    (List.map (fun p => { file := p.1, findings := p.2, summary := summary }))

/-- has_errors of post_review_to_github. -/
def hasErrorFindings (results : List ReviewResult) : Bool :=
  results.any (fun r => r.findings.any (fun f => jScalarEq f.severity (JValue.str "error")))

/-- The review event chosen by post_review_to_github. -/
def reviewEvent (results : List ReviewResult) : String :=
  if hasErrorFindings results then "REQUEST_CHANGES" else "COMMENT"

/-- github_integration.post_review_to_github with inline_comments=True:
build event, body and inline comments, try create_review, and on failure
fall back to a plain issue comment; only a failure of the fallback itself
propagates as an exception. -/
def postReviewToGithub (env : Env) (results : List ReviewResult) :
    Except String PostOutcome :=
  let event := reviewEvent results
  let body := env.formatReviewBody results
  let comments := env.buildInlineComments results
  let commentsArg := if comments.isEmpty then none else some comments
  match env.createReview body event commentsArg with
  | Except.ok _ =>
    Except.ok
      { success := true, inlineComments := comments.length, fallback := false,
        published := Published.review body event commentsArg }
  | Except.error _ =>
    match env.createIssueComment body with
    | Except.ok _ =>
      Except.ok
        { success := true, inlineComments := 0, fallback := true,
          published := Published.comment body }
    | Except.error e => Except.error e

/-- The pipeline of tool_post_review up to the GitHub call: choose the
summary, findings and (unused) recommendation, iterate and group the raw
findings, and publish.  Returns the summary, len(findings) and the publish
outcome. -/
def toolPostReviewCore (env : Env) (input : ToolInput) (st : AgentState) :
    Except String (String × Nat × PostOutcome) :=
  let summary := input.summary.getD "Code review completed."
  let findings := input.findings.getD st.findings
  let recommendation := input.recommendation.getD "comment"
  match pyFindingObjs findings with
  | Except.error e => Except.error e
  | Except.ok objs =>
    match buildReviewResults summary objs with
    | Except.error e => Except.error e
    | Except.ok results =>
      match postReviewToGithub env results with
      | Except.error e => Except.error e
      | Except.ok outcome => Except.ok (summary, objs.length, outcome)

/-- tool_post_review.  On success review_posted is set; the result string
keeps success and inline_comments from the publish outcome and drops its
fallback flag. -/
def toolPostReview : ToolFn := fun env input st =>
  match toolPostReviewCore env input st with
  | Except.error e => Except.error (e, st)
  | Except.ok (summary, n, outcome) =>
    Except.ok
      (jdump (JValue.obj
        [("success", JValue.bool outcome.success),
         ("inline_comments", JValue.num (toString outcome.inlineComments)),
         ("summary", JValue.str summary),
         ("findings_count", JValue.num (toString n))]),
       { st with reviewPosted := true })

/-- tool_finish: audit log only. -/
def toolFinish : ToolFn := fun _ input st =>
  let reason := input.reason.getD "Review complete"
  Except.ok
    (jdump (JValue.obj [("status", JValue.str "complete"), ("reason", JValue.str reason)]),
     addReasoning st ("Finishing: " ++ reason))

/-- The getattr-based dispatch of AgentToolExecutor.execute as a closed
name table: exactly the seven tool_ methods exist. -/
def dispatchTool (name : String) : Option ToolFn :=
  if name = "analyze_pr_context" then some toolAnalyzePrContext
  else if name = "fetch_changed_files" then some toolFetchChangedFiles
  else if name = "fetch_related_files" then some toolFetchRelatedFiles
  else if name = "review_code" then some toolReviewCode
  else if name = "self_critique" then some toolSelfCritique
  else if name = "post_review" then some toolPostReview
  else if name = "finish" then some toolFinish
  else none

/-- A single-quote character, for building the source's message texts. -/
def squote : String := String.mk [Char.ofNat 39]

/-- The unknown-tool error result of AgentToolExecutor.execute. -/
def unknownToolMsg (name : String) : String :=
  "Error: Unknown tool " ++ squote ++ name ++ squote

/-- AgentToolExecutor.execute: dispatch by name, catch every tool
exception, and always return a result string together with the state as
mutated so far.  This function is total: no tool-call error escapes it. -/
def execute (env : Env) (toolName : String) (input : ToolInput) (st : AgentState) :
    String × AgentState :=
  match dispatchTool toolName with
  | none => (unknownToolMsg toolName, st)
  | some t =>
    match t env input st with
    | Except.ok (res, st2) => (res, st2)
    | Except.error (e, st2) => ("Error executing " ++ toolName ++ ": " ++ e, st2)

/-! ## Reasoning driver (run_agent) -/

/-- One tool-call request of the decision oracle. -/
structure ToolUse where
  name : String
  input : ToolInput
  deriving Repr, BEq

/-- One decision-oracle response: the text blocks and the tool-call
requests of the returned content, in order. -/
structure OracleResponse where
  textBlocks : List String
  toolUses : List ToolUse
  deriving Repr, BEq

/-- One entry of the conversation history run_agent maintains. -/
inductive Turn where
  | user (content : String)
  | assistant (response : OracleResponse)
  | toolResults (results : List String)
  deriving Repr, BEq

/-- Which exit of the loop fired (spec section 4.4). -/
inductive TermReason where
  | budgetExhausted
  | explicitFinish
  | published
  deriving Repr, BEq, DecidableEq

/-- The final state of a session together with its termination reason. -/
structure DriverResult where
  state : AgentState
  reason : TermReason
  deriving Repr, BEq

/-- Execute one turn's tool calls sequentially, collecting the result
strings and whether the finish tool was among the calls. -/
def runTools (env : Env) : List ToolUse → AgentState → AgentState × List String × Bool
  | [], st => (st, [], false)
  | tu :: rest, st =>
    let (res, st2) := execute env tu.name tu.input st
    let (st3, results, fin) := runTools env rest st2
    (st3, res :: results, fin || (tu.name == "finish"))

/-- The seed instruction of run_agent. -/
def seedMessage : String :=
  "Please review the Pull Request. Start by analyzing the PR context."

/-- The while-loop of run_agent: while iteration < max_iterations,
increment the counter, call the decision oracle on the history, log
thinking-aloud text (truncated to 200 characters) when there are no tool
calls, otherwise execute the calls sequentially, append the results, and
stop on finish or on a posted review.  The loop is modelled with explicit
fuel; runAgent supplies fuel max_iterations − iteration, which the
budget-exhaustion theorem shows is exact (each pass consumes one unit and
no tool changes the counter). -/
def runLoopAux (env : Env) (oracle : List Turn → OracleResponse) :
    Nat → List Turn → AgentState → DriverResult
  | 0, _, st => ⟨st, TermReason.budgetExhausted⟩
  | fuel + 1, msgs, st =>
    if st.iteration < st.maxIterations then
      let st1 := { st with iteration := st.iteration + 1 }
      let resp := oracle msgs
      let msgs1 := msgs ++ [Turn.assistant resp]
      match resp.toolUses with
      | [] =>
        let st2 := resp.textBlocks.foldl (fun s t => addReasoning s (t.take 200)) st1
        runLoopAux env oracle fuel msgs1 st2
      | tu :: tus =>
        let (st2, results, fin) := runTools env (tu :: tus) st1
        let msgs2 := msgs1 ++ [Turn.toolResults results]
        if fin then ⟨st2, TermReason.explicitFinish⟩
        else if st2.reviewPosted then ⟨st2, TermReason.published⟩
        else runLoopAux env oracle fuel msgs2 st2
    else ⟨st, TermReason.budgetExhausted⟩

/-- The fresh session state of run_agent (AgentState() defaults). -/
def initialState : AgentState := {}

/-- run_agent: run the loop from the fresh state and the seed message. -/
def runAgent (env : Env) (oracle : List Turn → OracleResponse) : DriverResult :=
  runLoopAux env oracle initialState.maxIterations [Turn.user seedMessage] initialState

/-- len() of the findings value, as used by the summary print (defined as 0
on the unsized values, which no claim reaches). -/
def jLen : JValue → Nat
  | JValue.arr xs => xs.length
  | JValue.obj fs => fs.length
  | JValue.str s => s.length
  | _ => 0

/-- The session termination summary printed by run_agent (spec section 6):
iterations used, files reviewed, related files fetched, final findings
count, and whether the review was posted. -/
structure SessionSummary where
  iterations : Nat
  filesReviewed : Nat
  relatedFilesFetched : Nat
  finalFindings : Nat
  reviewPosted : Bool
  deriving Repr, BEq

/-- Build the termination summary from the final state. -/
def sessionSummary (st : AgentState) : SessionSummary :=
  { iterations := st.iteration
    filesReviewed := st.changedFiles.length
    relatedFilesFetched := st.relatedFiles.length
    finalFindings := jLen st.findings
    reviewPosted := st.reviewPosted }

/-! ## Derived definitions used by the specification statements -/

/-- The state a tool body leaves behind, on either exit. -/
def resultState : Except (String × AgentState) (String × AgentState) → AgentState
  | Except.ok (_, st) => st
  | Except.error (_, st) => st

/-- The file field of a finding record (none when the finding is not a
dict or has no file key). -/
def findingFile : JValue → Option JValue
  | JValue.obj fs => alistGet fs "file"
  | _ => none

/-- The elements of a JSON list value (empty on non-lists). -/
def jItems : JValue → List JValue
  | JValue.arr xs => xs
  | _ => []

/-- The elements of the session findings list. -/
def stateFindings (st : AgentState) : List JValue :=
  jItems st.findings

/-- One finding carries a file that is a key of the given changed-files
dict. -/
def findingFileOk (changed : List (String × String)) (f : JValue) : Prop :=
  ∃ fn, findingFile f = some (JValue.str fn) ∧ alistHas changed fn = true

/-- The claimed session invariant: every finding in the findings list
carries a file that is a key of changedFiles. -/
def findingsInvariant (st : AgentState) : Prop :=
  ∀ f ∈ stateFindings st, findingFileOk st.changedFiles f

/-- The findings value in force after a self_critique call (whatever
branch it took). -/
def critiqueInstalled (env : Env) (input : ToolInput) (st : AgentState) : JValue :=
  (resultState (toolSelfCritique env input st)).findings

/-- The findings tool_review_code gains from one file, as a function of
the changed-files dict and that file alone: nothing for a file outside
changed_files, otherwise the decoded and stamped findings of its oracle
response. -/
def fileContrib (env : Env) (changed : List (String × String)) (fn : String) : List JValue :=
  if alistHas changed fn then
    match env.reviewOracle fn with
    | Except.ok text => (parseReviewResponse fn text).1
    | Except.error _ => []
  else []

/-- The trace entries tool_review_code logs for one file: exactly one
parse-error entry when the decode of its response raised. -/
def fileTrace (env : Env) (changed : List (String × String)) (iter : Nat)
    (fn : String) : List (Nat × String) :=
  if alistHas changed fn then
    match env.reviewOracle fn with
    | Except.ok text =>
      if (parseReviewResponse fn text).2 then
        [(iter, "Error parsing review for " ++ fn)]
      else []
    | Except.error _ => []
  else []

/-- Does a changed file pass the extension filter of
tool_fetch_changed_files? (an empty filter passes everything). -/
def passesFilter (ft : List String) (f : FileContent) : Bool :=
  ft.isEmpty || ft.contains (splitextExt f.filename)

/-- Merge a list of fetched files into a changed-files dict, in order. -/
def insertContents (d : List (String × String)) (files : List FileContent) :
    List (String × String) :=
  files.foldl (fun d f => alistInsert d f.filename f.content) d

/-! ## Concrete instances used in closed statements -/

/-- A minimal collaborator environment for concrete instantiations. -/
def env0 : Env :=
  { prInfo :=
      { title := "t", body := none, userLogin := "u", labels := [],
        baseRef := "main", baseSha := "sha0", headRef := "dev", draft := false }
    prFiles := []
    prFileContents := []
    getFileContent := fun _ _ => Except.error "not found"
    reviewOracle := fun _ => Except.error "no oracle"
    critiqueOracle := Except.error "no oracle"
    formatReviewBody := fun _ => "body"
    buildInlineComments := fun _ => []
    createReview := fun _ _ _ => Except.ok ()
    createIssueComment := fun _ => Except.ok () }

/-- A decision oracle that only thinks aloud and never requests a tool. -/
def silentOracle : List Turn → OracleResponse :=
  fun _ => { textBlocks := [], toolUses := [] }

/-- A session state holding one stamped finding for the file a.py. -/
def stC2 : AgentState :=
  { findings := JValue.arr [JValue.obj [("file", JValue.str "a.py")]] }

/-- env0 with a critique oracle whose response parses to an object with an
empty filtered_findings array. -/
def envC2s : Env :=
  { env0 with critiqueOracle := Except.ok "\x7b\"filtered_findings\": []\x7d" }

/-- env0 with a critique oracle whose response contains no brace span. -/
def envC2f : Env :=
  { env0 with critiqueOracle := Except.ok "no json here" }

/-- env0 with a failing critique oracle (the API call raises). -/
def envC8 : Env :=
  { env0 with critiqueOracle := Except.error "api down" }

/-- A session state with one fetched changed file. -/
def st9 : AgentState :=
  { changedFiles := [("a.py", "print(1)")] }

/-- env0 with one good and one missing repository path. -/
def env6 : Env :=
  { env0 with getFileContent := fun p _ =>
      if p == "good.py" then Except.ok "x\ny" else Except.error "404" }

/-- A fetch_related_files argument listing one valid and one invalid path. -/
def input6 : ToolInput :=
  { filePaths := some ["good.py", "bad.py"], reason := some "ctx" }

/-- env0 whose PR changes one Python and one JavaScript file. -/
def env5 : Env :=
  { env0 with prFileContents :=
      [{ filename := "a.py", content := "x", status := "modified" },
       { filename := "b.js", content := "y", status := "modified" }] }

/-- A post_review argument carrying one error-severity finding. -/
def input10 : ToolInput :=
  { findings := some (JValue.arr [JValue.obj [("severity", JValue.str "error")]]) }

/-- env0 whose create_review call always fails (so publishing falls back
to a plain issue comment). -/
def envC4a : Env :=
  { env0 with createReview := fun _ _ _ => Except.error "500" }

/-- A post_review argument with an empty findings list. -/
def inputC4 : ToolInput :=
  { findings := some (JValue.arr []), summary := some "ok",
    recommendation := some "comment" }

/-- A decision oracle that immediately posts a review. -/
def oracleC4 : List Turn → OracleResponse :=
  fun _ => { textBlocks := [], toolUses := [{ name := "post_review", input := inputC4 }] }

/-- env0 with one changed Python file and a critique oracle whose parsed
response installs a finding naming a file that was never fetched. -/
def envC3 : Env :=
  { env0 with
      prFileContents := [{ filename := "a.py", content := "x", status := "modified" }],
      critiqueOracle :=
        Except.ok "\x7b\"filtered_findings\": [\x7b\"file\": \"ghost.py\"\x7d]\x7d" }

/-- A decision oracle whose single turn fetches the changed files, runs a
self-critique over one schema-valid finding, and finishes. -/
def oracleC3 : List Turn → OracleResponse :=
  fun _ =>
    { textBlocks := [],
      toolUses :=
        [{ name := "fetch_changed_files", input := {} },
         { name := "self_critique",
           input :=
             { findings := some (JValue.arr [JValue.obj [("file", JValue.str "a.py")]]),
               criteria := some "importance" } },
         { name := "finish", input := { reason := some "done" } }] }

/-- A review-oracle response holding one findings array followed by prose
that itself contains brackets. -/
def respC7 : String :=
  "[\x7b\"severity\": \"info\"\x7d] (see [2])"

/-- env0 with a review oracle answering respC7 for the file a.py. -/
def envC7 : Env :=
  { env0 with reviewOracle := fun fn =>
      if fn == "a.py" then Except.ok respC7 else Except.error "no oracle" }

/-- The well-formed findings array of the C7 scenario response. -/
def spanC7 : String :=
  "[\x7b\"line\": 1, \"severity\": \"info\", \"category\": \"correctness\", \"message\": \"no return value\", \"suggestion\": null\x7d]"

/-- The C7 scenario response: leading prose around one findings array. -/
def respC7w : String := "Sure! " ++ spanC7

/-- env0 with a review oracle answering respC7w for the file a.py. -/
def envC7w : Env :=
  { env0 with reviewOracle := fun fn =>
      if fn == "a.py" then Except.ok respC7w else Except.error "no oracle" }

/-- The finding the C7 scenario decodes, stamped with its file. -/
def findingC7 : JValue :=
  JValue.obj
    [("line", JValue.num "1"), ("severity", JValue.str "info"),
     ("category", JValue.str "correctness"),
     ("message", JValue.str "no return value"),
     ("suggestion", JValue.null), ("file", JValue.str "a.py")]

/-! ## Helper lemmas -/

theorem alistKeys_map_update {α : Type} (k : String) (v : α) :
    ∀ d : List (String × α),
      alistKeys (d.map (fun p => if p.1 == k then (k, v) else p)) = alistKeys d := by
  intro d
  induction d with
  | nil => rfl
  | cons p rest ih =>
    simp only [alistKeys, List.map_cons] at ih ⊢
    rw [ih]
    by_cases hp : p.1 = k <;> simp [hp]

theorem alistKeys_insert {α : Type} (d : List (String × α)) (k : String) (v : α) :
    alistKeys (alistInsert d k v) =
      if alistHas d k then alistKeys d else alistKeys d ++ [k] := by
  by_cases h : alistHas d k = true
  · simp only [alistInsert, h, if_true]
    rw [alistKeys_map_update]
  · simp only [alistInsert, h, if_false]
    simp only [Bool.not_eq_true] at h
    simp [alistKeys, h]

theorem mem_alistKeys_insert {α : Type} (d : List (String × α)) (k k' : String) (v : α)
    (h : k' ∈ alistKeys d) : k' ∈ alistKeys (alistInsert d k v) := by
  rw [alistKeys_insert]
  split <;> simp [h]

theorem alistHas_iff_mem_keys {α : Type} (d : List (String × α)) (k : String) :
    alistHas d k = true ↔ k ∈ alistKeys d := by
  simp [alistHas, alistKeys, List.any_eq_true, List.mem_map]

theorem alistHas_insert_of_has {α : Type} (d : List (String × α)) (k k' : String) (v : α)
    (h : alistHas d k' = true) : alistHas (alistInsert d k v) k' = true := by
  rw [alistHas_iff_mem_keys] at h ⊢
  exact mem_alistKeys_insert d k k' v h

theorem alistGet_update_self {α : Type} (k : String) (v : α) :
    ∀ d : List (String × α), alistHas d k = true →
      alistGet (d.map (fun p => if p.1 == k then (k, v) else p)) k = some v := by
  intro d
  induction d with
  | nil => intro h; simp [alistHas] at h
  | cons p rest ih =>
    intro h
    cases hb : (p.1 == k) with
    | true => simp [alistGet, hb]
    | false =>
      have hb' : ¬ p.1 = k := by simpa using hb
      have h2 : alistHas rest k = true := by
        simp [alistHas, hb'] at h ⊢
        exact h
      have hthis := ih h2
      simp only [List.map_cons]
      rw [show (if p.1 == k then (k, v) else p) = p from by simp [hb']]
      simp only [alistGet, hb, Bool.false_eq_true, if_false]
      exact hthis

theorem alistGet_append_self {α : Type} (k : String) (v : α) :
    ∀ d : List (String × α), alistHas d k = false →
      alistGet (d ++ [(k, v)]) k = some v := by
  intro d
  induction d with
  | nil => intro _; simp [alistGet]
  | cons p rest ih =>
    intro h
    cases hb : (p.1 == k) with
    | true =>
      exfalso
      simp [alistHas, hb] at h
    | false =>
      have h2 : alistHas rest k = false := by
        simp [alistHas, hb] at h ⊢
        exact h
      simp only [List.cons_append, alistGet, hb, Bool.false_eq_true, if_false]
      exact ih h2

theorem alistGet_insert_self {α : Type} (d : List (String × α)) (k : String) (v : α) :
    alistGet (alistInsert d k v) k = some v := by
  unfold alistInsert
  split
  · exact alistGet_update_self k v d (by assumption)
  · rename_i h
    exact alistGet_append_self k v d (by simpa using h)

theorem alistHas_insert_self {α : Type} (d : List (String × α)) (k : String) (v : α) :
    alistHas (alistInsert d k v) k = true := by
  rw [alistHas_iff_mem_keys, alistKeys_insert]
  split
  · rw [← alistHas_iff_mem_keys]
    assumption
  · simp

theorem execute_snd (env : Env) (name : String) (input : ToolInput) (st : AgentState) :
    (execute env name input st).2 =
      (match dispatchTool name with
       | none => st
       | some t => resultState (t env input st)) := by
  cases hd : dispatchTool name with
  | none => simp [execute, hd]
  | some t =>
    cases h : t env input st with
    | ok p => cases p; simp [execute, hd, h, resultState]
    | error p => cases p; simp [execute, hd, h, resultState]

theorem analyze_state (env : Env) (input : ToolInput) (st : AgentState) :
    resultState (toolAnalyzePrContext env input st) =
      { st with prContext := some (prContextOf env.prInfo env.prFiles) } := rfl

theorem finish_state (env : Env) (input : ToolInput) (st : AgentState) :
    resultState (toolFinish env input st) =
      addReasoning st ("Finishing: " ++ input.reason.getD "Review complete") := rfl

theorem fetchChangedLoop_state (ft : List String) :
    ∀ (files : List FileContent) (st : AgentState) (fetched : List JValue),
      ∃ c, (fetchChangedLoop ft files st fetched).1 = { st with changedFiles := c } ∧
        (∀ k, k ∈ alistKeys st.changedFiles → k ∈ alistKeys c) := by
  intro files
  induction files with
  | nil =>
    intro st fetched
    exact ⟨st.changedFiles, rfl, fun k hk => hk⟩
  | cons f rest ih =>
    intro st fetched
    simp only [fetchChangedLoop]
    split
    · exact ih st fetched
    · obtain ⟨c, hc, hmono⟩ :=
        ih { st with changedFiles := alistInsert st.changedFiles f.filename f.content }
          (fetched ++ [JValue.obj
            [("filename", JValue.str f.filename),
             ("lines", JValue.num (toString (countLines f.content))),
             ("status", JValue.str f.status)]])
      refine ⟨c, ?_, ?_⟩
      · rw [hc]
      · intro k hk
        exact hmono k (mem_alistKeys_insert _ _ _ _ hk)

theorem fetchRelatedLoop_spec (env : Env) (baseSha : String) :
    ∀ (paths : List String) (st : AgentState) (fetched : List JValue),
      (fetchRelatedLoop env baseSha paths st fetched).2 =
          fetched ++ paths.map (relatedEntry env baseSha) ∧
      ∃ r, (fetchRelatedLoop env baseSha paths st fetched).1 = { st with relatedFiles := r } ∧
        (∀ p ∈ paths, ∀ c, env.getFileContent p baseSha = Except.ok c →
          alistHas r p = true) ∧
        (∀ k, alistHas st.relatedFiles k = true → alistHas r k = true) := by
  intro paths
  induction paths with
  | nil =>
    intro st fetched
    refine ⟨by simp [fetchRelatedLoop], st.relatedFiles, rfl, ?_, fun k hk => hk⟩
    intro p hp
    simp at hp
  | cons p rest ih =>
    intro st fetched
    simp only [fetchRelatedLoop]
    cases h : env.getFileContent p baseSha with
    | ok content =>
      obtain ⟨hsnd, r, hfst, hstored, hmono⟩ :=
        ih { st with relatedFiles := alistInsert st.relatedFiles p content }
          (fetched ++ [JValue.obj
            [("path", JValue.str p),
             ("lines", JValue.num (toString (countLines content)))]])
      refine ⟨?_, r, by rw [hfst], ?_, ?_⟩
      · rw [hsnd]
        simp [relatedEntry, h]
      · intro q hq c hc
        rcases List.mem_cons.mp hq with hq | hq
        · subst hq
          exact hmono q (alistHas_insert_self _ _ _)
        · exact hstored q hq c hc
      · intro k hk
        exact hmono k (alistHas_insert_of_has _ _ _ _ hk)
    | error e =>
      obtain ⟨hsnd, r, hfst, hstored, hmono⟩ :=
        ih st (fetched ++ [JValue.obj [("path", JValue.str p), ("error", JValue.str e)]])
      refine ⟨?_, r, hfst, ?_, hmono⟩
      · rw [hsnd]
        simp [relatedEntry, h]
      · intro q hq c hc
        rcases List.mem_cons.mp hq with hq | hq
        · subst hq
          rw [h] at hc
          cases hc
        · exact hstored q hq c hc

theorem stampElems_cons_obj (fn : String) (fs : List (String × JValue)) (rest : List JValue) :
    stampElems fn (JValue.obj fs :: rest) =
      (JValue.obj (alistInsert fs "file" (JValue.str fn)) :: (stampElems fn rest).1,
       (stampElems fn rest).2) := by
  rcases h : stampElems fn rest with ⟨s, e⟩
  simp [stampElems, h]

theorem stampElems_file (fn : String) :
    ∀ elems, ∀ f ∈ (stampElems fn elems).1, findingFile f = some (JValue.str fn) := by
  intro elems
  induction elems with
  | nil => intro f hf; simp [stampElems] at hf
  | cons e rest ih =>
    intro f hf
    cases e with
    | obj fs =>
      rw [stampElems_cons_obj] at hf
      simp only [List.mem_cons] at hf
      rcases hf with hf | hf
      · subst hf
        simp [findingFile, alistGet_insert_self]
      · exact ih f hf
    | null => simp [stampElems] at hf
    | bool b => simp [stampElems] at hf
    | num s => simp [stampElems] at hf
    | str s => simp [stampElems] at hf
    | arr xs => simp [stampElems] at hf

theorem parseReviewResponse_eq_some (fn text span : String)
    (hx : extractArraySpan text = some span) :
    parseReviewResponse fn text =
      (match jsonLoads span with
       | none => ([], true)
       | some (JValue.arr elems) => stampElems fn elems
       | some (JValue.obj fs) => if fs.isEmpty then ([], false) else ([], true)
       | some (JValue.str s) => if s == "" then ([], false) else ([], true)
       | some _ => ([], true)) := by
  unfold parseReviewResponse
  rw [hx]

theorem parseReviewResponse_file (fn text : String) :
    ∀ f ∈ (parseReviewResponse fn text).1, findingFile f = some (JValue.str fn) := by
  intro f hf
  cases hx : extractArraySpan text with
  | none =>
    unfold parseReviewResponse at hf
    rw [hx] at hf
    simp at hf
  | some span =>
    rw [parseReviewResponse_eq_some fn text span hx] at hf
    cases hj : jsonLoads span with
    | none => rw [hj] at hf; simp at hf
    | some v =>
      rw [hj] at hf
      cases v with
      | arr elems => exact stampElems_file fn elems f hf
      | obj fs =>
        by_cases he : fs.isEmpty = true <;> simp [he] at hf
      | str s =>
        by_cases he : (s == "") = true <;> simp [he] at hf
      | null => simp at hf
      | bool b => simp at hf
      | num s => simp at hf

theorem state_trace_compose (st : AgentState) (tr0 tr : List (Nat × String)) :
    ({ { st with reasoningTrace := st.reasoningTrace ++ tr0 } with
        reasoningTrace := ({ st with reasoningTrace := st.reasoningTrace ++ tr0 } :
          AgentState).reasoningTrace ++ tr } : AgentState)
      = { st with reasoningTrace := st.reasoningTrace ++ (tr0 ++ tr) } := by
  simp [List.append_assoc]

theorem reviewFiles_cons_skip (env : Env) (fn : String) (rest : List String)
    (st : AgentState) (acc : List JValue)
    (hm : alistHas st.changedFiles fn = false) :
    reviewFiles env (fn :: rest) st acc = reviewFiles env rest st acc := by
  simp [reviewFiles, hm]

theorem reviewFiles_cons_err (env : Env) (fn : String) (rest : List String)
    (st : AgentState) (acc : List JValue) (e : String)
    (hm : alistHas st.changedFiles fn = true)
    (ho : env.reviewOracle fn = Except.error e) :
    reviewFiles env (fn :: rest) st acc = Except.error (e, st) := by
  simp [reviewFiles, hm, ho]

theorem reviewFiles_cons_ok (env : Env) (fn : String) (rest : List String)
    (st : AgentState) (acc : List JValue) (text : String)
    (hm : alistHas st.changedFiles fn = true)
    (ho : env.reviewOracle fn = Except.ok text) :
    reviewFiles env (fn :: rest) st acc =
      reviewFiles env rest
        (if (parseReviewResponse fn text).2 then
          addReasoning st ("Error parsing review for " ++ fn) else st)
        (acc ++ (parseReviewResponse fn text).1) := by
  rcases h : parseReviewResponse fn text with ⟨fs, er⟩
  simp [reviewFiles, hm, ho, h]

theorem reviewFiles_spec (env : Env) :
    ∀ (files : List String) (st : AgentState) (acc : List JValue),
      (∀ e st2, reviewFiles env files st acc = Except.error (e, st2) →
        ∃ tr, st2 = { st with reasoningTrace := st.reasoningTrace ++ tr })
      ∧ (∀ st2 all, reviewFiles env files st acc = Except.ok (st2, all) →
        (∃ tr, st2 = { st with reasoningTrace := st.reasoningTrace ++ tr })
        ∧ ∃ new, all = acc ++ new ∧ ∀ f ∈ new, findingFileOk st.changedFiles f) := by
  intro files
  induction files with
  | nil =>
    intro st acc
    constructor
    · intro e st2 h
      simp [reviewFiles] at h
    · intro st2 all h
      simp only [reviewFiles, Except.ok.injEq, Prod.mk.injEq] at h
      obtain ⟨h1, h2⟩ := h
      subst h1
      subst h2
      refine ⟨⟨[], by simp⟩, [], by simp, ?_⟩
      intro f hf
      simp at hf
  | cons fn rest ih =>
    intro st acc
    by_cases hm : alistHas st.changedFiles fn = true
    · cases ho : env.reviewOracle fn with
      | error e0 =>
        rw [reviewFiles_cons_err env fn rest st acc e0 hm ho]
        constructor
        · intro e st2 h
          simp only [Except.error.injEq, Prod.mk.injEq] at h
          obtain ⟨h1, h2⟩ := h
          subst h2
          exact ⟨[], by simp⟩
        · intro st2 all h
          simp at h
      | ok text =>
        rw [reviewFiles_cons_ok env fn rest st acc text hm ho]
        by_cases herr : (parseReviewResponse fn text).2 = true
        · rw [if_pos herr]
          have hstep : addReasoning st ("Error parsing review for " ++ fn) =
              { st with reasoningTrace :=
                st.reasoningTrace ++ [(st.iteration, "Error parsing review for " ++ fn)] } := rfl
          rw [hstep]
          have hih := ih { st with reasoningTrace :=
            st.reasoningTrace ++ [(st.iteration, "Error parsing review for " ++ fn)] }
            (acc ++ (parseReviewResponse fn text).1)
          constructor
          · intro e st2 h
            obtain ⟨tr, htr⟩ := hih.1 e st2 h
            refine ⟨[(st.iteration, "Error parsing review for " ++ fn)] ++ tr, ?_⟩
            rw [htr]
            exact state_trace_compose st _ tr
          · intro st2 all h
            obtain ⟨⟨tr, htr⟩, new', hnew', hfile⟩ := hih.2 st2 all h
            constructor
            · refine ⟨[(st.iteration, "Error parsing review for " ++ fn)] ++ tr, ?_⟩
              rw [htr]
              exact state_trace_compose st _ tr
            · refine ⟨(parseReviewResponse fn text).1 ++ new', ?_, ?_⟩
              · rw [hnew']
                simp [List.append_assoc]
              · intro f hf
                rcases List.mem_append.mp hf with hf | hf
                · exact ⟨fn, parseReviewResponse_file fn text f hf, hm⟩
                · exact hfile f hf
        · rw [if_neg herr]
          have hih := ih st (acc ++ (parseReviewResponse fn text).1)
          constructor
          · intro e st2 h
            exact hih.1 e st2 h
          · intro st2 all h
            obtain ⟨⟨tr, htr⟩, new', hnew', hfile⟩ := hih.2 st2 all h
            refine ⟨⟨tr, htr⟩, (parseReviewResponse fn text).1 ++ new', ?_, ?_⟩
            · rw [hnew']
              simp [List.append_assoc]
            · intro f hf
              rcases List.mem_append.mp hf with hf | hf
              · exact ⟨fn, parseReviewResponse_file fn text f hf, hm⟩
              · exact hfile f hf
    · have hm' : alistHas st.changedFiles fn = false := by simpa using hm
      rw [reviewFiles_cons_skip env fn rest st acc hm']
      exact ih st acc

theorem fetchChanged_state (env : Env) (input : ToolInput) (st : AgentState) :
    ∃ c, resultState (toolFetchChangedFiles env input st) = { st with changedFiles := c } ∧
      ∀ k, k ∈ alistKeys st.changedFiles → k ∈ alistKeys c := by
  obtain ⟨c, hc, hm⟩ :=
    fetchChangedLoop_state (input.fileTypes.getD [".py"]) env.prFileContents st []
  refine ⟨c, ?_, hm⟩
  unfold toolFetchChangedFiles
  dsimp only
  rcases h : fetchChangedLoop (input.fileTypes.getD [".py"]) env.prFileContents st [] with ⟨s, f⟩
  dsimp only [resultState]
  rw [h] at hc
  exact hc

theorem fetchRelated_state (env : Env) (input : ToolInput) (st : AgentState) :
    ∃ r tr, resultState (toolFetchRelatedFiles env input st) =
      { st with relatedFiles := r, reasoningTrace := tr } := by
  obtain ⟨-, r, hr, -, -⟩ :=
    fetchRelatedLoop_spec env env.prInfo.baseSha (input.filePaths.getD [])
      (addReasoning st ("Fetching related files: " ++ input.reason.getD "")) []
  refine ⟨r, st.reasoningTrace ++
    [(st.iteration, "Fetching related files: " ++ input.reason.getD "")], ?_⟩
  unfold toolFetchRelatedFiles
  dsimp only
  rcases h : fetchRelatedLoop env env.prInfo.baseSha (input.filePaths.getD [])
      (addReasoning st ("Fetching related files: " ++ input.reason.getD "")) [] with ⟨s, f⟩
  dsimp only [resultState]
  rw [h] at hr
  exact hr

theorem reviewCode_state (env : Env) (input : ToolInput) (st : AgentState) :
    ∃ f tr, resultState (toolReviewCode env input st) =
      { st with findings := f, reasoningTrace := tr } := by
  cases h : reviewFiles env (input.files.getD (alistKeys st.changedFiles)) st [] with
  | error p =>
    rcases p with ⟨e, st2⟩
    obtain ⟨tr, htr⟩ :=
      (reviewFiles_spec env (input.files.getD (alistKeys st.changedFiles)) st []).1 e st2 h
    refine ⟨st.findings, st.reasoningTrace ++ tr, ?_⟩
    have heq : toolReviewCode env input st = Except.error (e, st2) := by
      unfold toolReviewCode
      dsimp only
      rw [h]
    rw [heq]
    dsimp only [resultState]
    rw [htr]
  | ok p =>
    rcases p with ⟨st2, all⟩
    obtain ⟨⟨tr, htr⟩, -⟩ :=
      (reviewFiles_spec env (input.files.getD (alistKeys st.changedFiles)) st []).2 st2 all h
    cases hfi : st2.findings with
    | arr xs =>
      refine ⟨JValue.arr (xs ++ all), st.reasoningTrace ++ tr, ?_⟩
      have heq : toolReviewCode env input st = Except.ok
          (jdump (JValue.obj
            [("findings_count", JValue.num (toString all.length)),
             ("findings", JValue.arr all)]),
           { st2 with findings := JValue.arr (xs ++ all) }) := by
        unfold toolReviewCode
        dsimp only
        rw [h]
        dsimp only
        rw [hfi]
      rw [heq]
      dsimp only [resultState]
      rw [htr]
    | null =>
      refine ⟨st.findings, st.reasoningTrace ++ tr, ?_⟩
      have heq : toolReviewCode env input st = Except.error
          ("AttributeError: findings has no attribute extend", st2) := by
        unfold toolReviewCode
        dsimp only
        rw [h]
        dsimp only
        rw [hfi]
      rw [heq]
      dsimp only [resultState]
      rw [htr]
    | bool b =>
      refine ⟨st.findings, st.reasoningTrace ++ tr, ?_⟩
      have heq : toolReviewCode env input st = Except.error
          ("AttributeError: findings has no attribute extend", st2) := by
        unfold toolReviewCode
        dsimp only
        rw [h]
        dsimp only
        rw [hfi]
      rw [heq]
      dsimp only [resultState]
      rw [htr]
    | num s =>
      refine ⟨st.findings, st.reasoningTrace ++ tr, ?_⟩
      have heq : toolReviewCode env input st = Except.error
          ("AttributeError: findings has no attribute extend", st2) := by
        unfold toolReviewCode
        dsimp only
        rw [h]
        dsimp only
        rw [hfi]
      rw [heq]
      dsimp only [resultState]
      rw [htr]
    | str s =>
      refine ⟨st.findings, st.reasoningTrace ++ tr, ?_⟩
      have heq : toolReviewCode env input st = Except.error
          ("AttributeError: findings has no attribute extend", st2) := by
        unfold toolReviewCode
        dsimp only
        rw [h]
        dsimp only
        rw [hfi]
      rw [heq]
      dsimp only [resultState]
      rw [htr]
    | obj fs =>
      refine ⟨st.findings, st.reasoningTrace ++ tr, ?_⟩
      have heq : toolReviewCode env input st = Except.error
          ("AttributeError: findings has no attribute extend", st2) := by
        unfold toolReviewCode
        dsimp only
        rw [h]
        dsimp only
        rw [hfi]
      rw [heq]
      dsimp only [resultState]
      rw [htr]

theorem critique_state (env : Env) (input : ToolInput) (st : AgentState) :
    ∃ f tr, resultState (toolSelfCritique env input st) =
      { st with findings := f, reasoningTrace := tr } := by
  by_cases hf : pyFalsy (input.findings.getD st.findings) = true
  · exact ⟨st.findings, st.reasoningTrace, by simp [toolSelfCritique, hf, resultState]⟩
  · have hf' : pyFalsy (input.findings.getD st.findings) = false := by simpa using hf
    cases ho : env.critiqueOracle with
    | error e =>
      exact ⟨st.findings, st.reasoningTrace,
        by simp [toolSelfCritique, hf', ho, resultState]⟩
    | ok text =>
      cases hx : extractObjSpan text with
      | none =>
        exact ⟨st.findings, st.reasoningTrace,
          by simp [toolSelfCritique, hf', ho, hx, resultState]⟩
      | some span =>
        cases hj : jsonLoads span with
        | none =>
          exact ⟨st.findings, st.reasoningTrace ++ [(st.iteration, "Error in self-critique")],
            by simp [toolSelfCritique, hf', ho, hx, hj, resultState, addReasoning]⟩
        | some v =>
          cases v with
          | obj fs =>
            exact ⟨alistGetD fs "filtered_findings" (input.findings.getD st.findings),
              st.reasoningTrace,
              by simp [toolSelfCritique, hf', ho, hx, hj, resultState]⟩
          | null =>
            exact ⟨st.findings, st.reasoningTrace ++ [(st.iteration, "Error in self-critique")],
              by simp [toolSelfCritique, hf', ho, hx, hj, resultState, addReasoning]⟩
          | bool b =>
            exact ⟨st.findings, st.reasoningTrace ++ [(st.iteration, "Error in self-critique")],
              by simp [toolSelfCritique, hf', ho, hx, hj, resultState, addReasoning]⟩
          | num s =>
            exact ⟨st.findings, st.reasoningTrace ++ [(st.iteration, "Error in self-critique")],
              by simp [toolSelfCritique, hf', ho, hx, hj, resultState, addReasoning]⟩
          | str s =>
            exact ⟨st.findings, st.reasoningTrace ++ [(st.iteration, "Error in self-critique")],
              by simp [toolSelfCritique, hf', ho, hx, hj, resultState, addReasoning]⟩
          | arr xs =>
            exact ⟨st.findings, st.reasoningTrace ++ [(st.iteration, "Error in self-critique")],
              by simp [toolSelfCritique, hf', ho, hx, hj, resultState, addReasoning]⟩

theorem postReview_state (env : Env) (input : ToolInput) (st : AgentState) :
    resultState (toolPostReview env input st) = st ∨
    resultState (toolPostReview env input st) = { st with reviewPosted := true } := by
  cases h : toolPostReviewCore env input st with
  | error e =>
    left
    simp [toolPostReview, h, resultState]
  | ok trip =>
    rcases trip with ⟨s, n, o⟩
    right
    simp [toolPostReview, h, resultState]

theorem execute_frame (env : Env) (name : String) (input : ToolInput) (st : AgentState) :
    (execute env name input st).2.iteration = st.iteration
    ∧ (execute env name input st).2.maxIterations = st.maxIterations
    ∧ ∀ k, k ∈ alistKeys st.changedFiles →
        k ∈ alistKeys (execute env name input st).2.changedFiles := by
  rw [execute_snd]
  rcases hd : dispatchTool name with _ | t
  · exact ⟨rfl, rfl, fun k hk => hk⟩
  · dsimp only
    unfold dispatchTool at hd
    split_ifs at hd
    all_goals first
      | (simp only [Option.some.injEq] at hd
         subst hd
         first
          | (rw [analyze_state]
             exact ⟨rfl, rfl, fun k hk => hk⟩)
          | (obtain ⟨c, hc, hmono⟩ := fetchChanged_state env input st
             rw [hc]
             exact ⟨rfl, rfl, fun k hk => hmono k hk⟩)
          | (obtain ⟨r, tr, hr⟩ := fetchRelated_state env input st
             rw [hr]
             exact ⟨rfl, rfl, fun k hk => hk⟩)
          | (obtain ⟨f, tr, hftr⟩ := reviewCode_state env input st
             rw [hftr]
             exact ⟨rfl, rfl, fun k hk => hk⟩)
          | (obtain ⟨f, tr, hftr⟩ := critique_state env input st
             rw [hftr]
             exact ⟨rfl, rfl, fun k hk => hk⟩)
          | (rcases postReview_state env input st with hp | hp
             <;> rw [hp]
             <;> exact ⟨rfl, rfl, fun k hk => hk⟩)
          | (rw [finish_state]
             exact ⟨rfl, rfl, fun k hk => hk⟩))
      | simp at hd

theorem foldl_addReasoning_state (l : List String) :
    ∀ st : AgentState, ∃ tr,
      l.foldl (fun s t => addReasoning s (t.take 200)) st =
        { st with reasoningTrace := tr } := by
  induction l with
  | nil => intro st; exact ⟨st.reasoningTrace, rfl⟩
  | cons x xs ih =>
    intro st
    obtain ⟨tr, htr⟩ := ih (addReasoning st (x.take 200))
    exact ⟨tr, htr⟩

theorem runTools_cons (env : Env) (tu : ToolUse) (rest : List ToolUse) (st : AgentState) :
    (runTools env (tu :: rest) st).1 =
      (runTools env rest (execute env tu.name tu.input st).2).1 := by
  simp only [runTools]

theorem runTools_frame (env : Env) : ∀ (tus : List ToolUse) (st : AgentState),
    (runTools env tus st).1.iteration = st.iteration
    ∧ (runTools env tus st).1.maxIterations = st.maxIterations := by
  intro tus
  induction tus with
  | nil => intro st; exact ⟨rfl, rfl⟩
  | cons tu rest ih =>
    intro st
    rw [runTools_cons]
    have h1 := execute_frame env tu.name tu.input st
    have h2 := ih (execute env tu.name tu.input st).2
    exact ⟨h2.1.trans h1.1, h2.2.trans h1.2.1⟩

theorem runLoopAux_iter (env : Env) (oracle : List Turn → OracleResponse) :
    ∀ (fuel : Nat) (msgs : List Turn) (st : AgentState),
      (runLoopAux env oracle fuel msgs st).state.iteration ≤ max st.iteration st.maxIterations
      ∧ (runLoopAux env oracle fuel msgs st).state.maxIterations = st.maxIterations := by
  intro fuel
  induction fuel with
  | zero => intro msgs st; exact ⟨Nat.le_max_left _ _, rfl⟩
  | succ fuel ih =>
    intro msgs st
    by_cases hlt : st.iteration < st.maxIterations
    · have hmax2 : max st.iteration st.maxIterations = st.maxIterations :=
        max_eq_right (le_of_lt hlt)
      simp only [runLoopAux, hlt, if_true]
      cases htu : (oracle msgs).toolUses with
      | nil =>
        obtain ⟨tr, htr⟩ := foldl_addReasoning_state (oracle msgs).textBlocks
          { st with iteration := st.iteration + 1 }
        rw [htr]
        have hih := ih (msgs ++ [Turn.assistant (oracle msgs)])
          { st with iteration := st.iteration + 1, reasoningTrace := tr }
        have h1 : (runLoopAux env oracle fuel (msgs ++ [Turn.assistant (oracle msgs)])
            { st with iteration := st.iteration + 1, reasoningTrace := tr }).state.iteration
            ≤ max (st.iteration + 1) st.maxIterations := hih.1
        have h2 : (runLoopAux env oracle fuel (msgs ++ [Turn.assistant (oracle msgs)])
            { st with iteration := st.iteration + 1, reasoningTrace := tr }).state.maxIterations
            = st.maxIterations := hih.2
        refine ⟨?_, h2⟩
        rw [hmax2]
        rw [max_eq_right (by omega : st.iteration + 1 ≤ st.maxIterations)] at h1
        exact h1
      | cons tu tus =>
        dsimp only
        have hfr := runTools_frame env (tu :: tus) { st with iteration := st.iteration + 1 }
        have hi : (runTools env (tu :: tus)
            { st with iteration := st.iteration + 1 }).1.iteration = st.iteration + 1 := hfr.1
        have hm2 : (runTools env (tu :: tus)
            { st with iteration := st.iteration + 1 }).1.maxIterations
            = st.maxIterations := hfr.2
        split
        · exact ⟨by dsimp only; rw [hmax2]; omega, hm2⟩
        · split
          · exact ⟨by dsimp only; rw [hmax2]; omega, hm2⟩
          · have hih := ih (msgs ++ [Turn.assistant (oracle msgs)] ++
              [Turn.toolResults (runTools env (tu :: tus)
                { st with iteration := st.iteration + 1 }).2.1])
              (runTools env (tu :: tus) { st with iteration := st.iteration + 1 }).1
            refine ⟨?_, hih.2.trans hm2⟩
            have h1 := hih.1
            rw [hi, hm2] at h1
            rw [hmax2]
            rw [max_eq_right (by omega : st.iteration + 1 ≤ st.maxIterations)] at h1
            exact h1
    · simp only [runLoopAux, hlt, if_false]
      exact ⟨Nat.le_max_left _ _, by trivial⟩

theorem runLoopAux_noTools (env : Env) (oracle : List Turn → OracleResponse)
    (hor : ∀ msgs, (oracle msgs).toolUses = []) :
    ∀ (fuel : Nat) (msgs : List Turn) (st : AgentState),
      st.maxIterations ≤ st.iteration + fuel →
      (runLoopAux env oracle fuel msgs st).reason = TermReason.budgetExhausted
      ∧ (runLoopAux env oracle fuel msgs st).state.iteration = max st.iteration st.maxIterations
      ∧ (runLoopAux env oracle fuel msgs st).state.reviewPosted = st.reviewPosted := by
  intro fuel
  induction fuel with
  | zero =>
    intro msgs st hb
    exact ⟨rfl, (max_eq_left (by omega : st.maxIterations ≤ st.iteration)).symm, rfl⟩
  | succ fuel ih =>
    intro msgs st hb
    by_cases hlt : st.iteration < st.maxIterations
    · simp only [runLoopAux, hlt, if_true]
      rw [hor msgs]
      dsimp only
      obtain ⟨tr, htr⟩ := foldl_addReasoning_state (oracle msgs).textBlocks
        { st with iteration := st.iteration + 1 }
      rw [htr]
      have hih := ih (msgs ++ [Turn.assistant (oracle msgs)])
        { st with iteration := st.iteration + 1, reasoningTrace := tr }
        (show st.maxIterations ≤ st.iteration + 1 + fuel by omega)
      have h1 : (runLoopAux env oracle fuel (msgs ++ [Turn.assistant (oracle msgs)])
          { st with iteration := st.iteration + 1, reasoningTrace := tr }).state.iteration
          = max (st.iteration + 1) st.maxIterations := hih.2.1
      have ha : max (st.iteration + 1) st.maxIterations = st.maxIterations :=
        max_eq_right (by omega)
      have hb2 : max st.iteration st.maxIterations = st.maxIterations :=
        max_eq_right (by omega)
      exact ⟨hih.1, h1.trans (ha.trans hb2.symm), hih.2.2⟩
    · have heq : runLoopAux env oracle (fuel + 1) msgs st =
          ⟨st, TermReason.budgetExhausted⟩ := by
        simp only [runLoopAux, hlt, if_false]
      rw [heq]
      exact ⟨rfl, (max_eq_left (by omega : st.maxIterations ≤ st.iteration)).symm, rfl⟩

theorem dropWhile_append_allP {α : Type} (p : α → Bool) :
    ∀ (l1 l2 : List α), l1.all p = true →
      (l1 ++ l2).dropWhile p = l2.dropWhile p := by
  intro l1
  induction l1 with
  | nil => intro l2 h; rfl
  | cons x xs ih =>
    intro l2 h
    simp only [List.all_cons, Bool.and_eq_true] at h
    rw [List.cons_append, List.dropWhile_cons, if_pos h.1]
    exact ih l2 h.2

theorem dropWhile_cons_neg {α : Type} (p : α → Bool) (x : α) (l : List α)
    (h : p x = false) :
    (x :: l).dropWhile p = x :: l := by
  rw [List.dropWhile_cons, if_neg (by rw [h]; exact Bool.false_ne_true)]

theorem extractSpanList_embed (openC closeC : Char) (pre sp post : List Char)
    (hpre : pre.all (fun c => !(c == openC)) = true)
    (hpost : post.all (fun c => !(c == closeC)) = true)
    (hhead : sp.head? = some openC)
    (hlast : sp.getLast? = some closeC) :
    extractSpanList openC closeC (pre ++ sp ++ post) = some sp := by
  obtain ⟨sp1, rfl⟩ : ∃ sp1, sp = openC :: sp1 := by
    cases sp with
    | nil => cases hhead
    | cons c0 sp1 =>
      simp only [List.head?_cons, Option.some.injEq] at hhead
      exact ⟨sp1, by rw [hhead]⟩
  · have hrest : (pre ++ (openC :: sp1) ++ post).dropWhile (fun c => !(c == openC))
        = openC :: (sp1 ++ post) := by
      rw [List.append_assoc]
      rw [dropWhile_append_allP _ pre _ hpre]
      rw [List.cons_append]
      exact dropWhile_cons_neg _ _ _ (by simp)
    obtain ⟨ds, hds⟩ : ∃ ds, (openC :: sp1).reverse = closeC :: ds := by
      cases hc : (openC :: sp1).reverse with
      | nil =>
        exfalso
        have h2 := List.head?_reverse (openC :: sp1)
        rw [hc, hlast] at h2
        cases h2
      | cons d ds =>
        have h2 := List.head?_reverse (openC :: sp1)
        rw [hc, hlast] at h2
        simp only [List.head?_cons, Option.some.injEq] at h2
        exact ⟨ds, by rw [h2]⟩
    have hrev : ((openC :: (sp1 ++ post)).reverse).dropWhile (fun c => !(c == closeC))
        = closeC :: ds := by
      rw [List.reverse_cons, List.reverse_append, List.append_assoc]
      rw [dropWhile_append_allP _ post.reverse _ (by rw [List.all_reverse]; exact hpost)]
      rw [← List.reverse_cons, hds]
      exact dropWhile_cons_neg _ _ _ (by simp)
    have hback : (closeC :: ds).reverse = openC :: sp1 := by
      rw [← hds, List.reverse_reverse]
    simp only [extractSpanList, hrest, hrev, hback]

theorem extractArraySpan_embed (pre span post : String)
    (hpre : pre.data.all (fun c => !(c == '[')) = true)
    (hpost : post.data.all (fun c => !(c == ']')) = true)
    (hhead : span.data.head? = some '[')
    (hlast : span.data.getLast? = some ']') :
    extractArraySpan (pre ++ span ++ post) = some span := by
  unfold extractArraySpan extractBracketSpan
  have hdata : (pre ++ span ++ post).toList = pre.data ++ span.data ++ post.data := by
    show (pre ++ span ++ post).data = _
    rw [String.data_append, String.data_append]
  rw [hdata, extractSpanList_embed '[' ']' pre.data span.data post.data hpre hpost hhead hlast]
  rfl

theorem reviewFiles_decomp (env : Env) (changed : List (String × String)) (iter : Nat) :
    ∀ (files : List String) (st : AgentState) (acc : List JValue),
      st.changedFiles = changed → st.iteration = iter →
      (∀ fn ∈ files, ∃ t, env.reviewOracle fn = Except.ok t) →
      reviewFiles env files st acc = Except.ok
        ({ st with reasoningTrace := st.reasoningTrace ++
            files.flatMap (fileTrace env changed iter) },
         acc ++ files.flatMap (fileContrib env changed)) := by
  intro files
  induction files with
  | nil =>
    intro st acc hch hit hor
    simp [reviewFiles]
  | cons fn rest ih =>
    intro st acc hch hit hor
    have horr : ∀ g ∈ rest, ∃ t, env.reviewOracle g = Except.ok t :=
      fun g hg => hor g (List.mem_cons_of_mem _ hg)
    by_cases hm : alistHas changed fn = true
    · obtain ⟨t, ht⟩ := hor fn (List.mem_cons_self fn rest)
      rw [reviewFiles_cons_ok env fn rest st acc t (by rw [hch]; exact hm) ht]
      have hfc : fileContrib env changed fn = (parseReviewResponse fn t).1 := by
        simp [fileContrib, hm, ht]
      by_cases herr : (parseReviewResponse fn t).2 = true
      · rw [if_pos herr]
        have hft : fileTrace env changed iter fn
            = [(iter, "Error parsing review for " ++ fn)] := by
          simp [fileTrace, hm, ht, herr]
        have hstep : addReasoning st ("Error parsing review for " ++ fn) =
            { st with reasoningTrace := st.reasoningTrace ++
              [(iter, "Error parsing review for " ++ fn)] } := by
          rw [← hit]; rfl
        rw [hstep]
        rw [ih { st with reasoningTrace := st.reasoningTrace ++
              [(iter, "Error parsing review for " ++ fn)] }
            (acc ++ (parseReviewResponse fn t).1) hch hit horr]
        simp only [List.flatMap_cons, hft, hfc, List.append_assoc]
      · rw [if_neg herr]
        have hft : fileTrace env changed iter fn = [] := by
          simp [fileTrace, hm, ht, herr]
        rw [ih st (acc ++ (parseReviewResponse fn t).1) hch hit horr]
        simp only [List.flatMap_cons, hft, hfc, List.append_assoc, List.nil_append]
    · have hm' : alistHas changed fn = false := by simpa using hm
      rw [reviewFiles_cons_skip env fn rest st acc (by rw [hch]; exact hm')]
      rw [ih st acc hch hit horr]
      have hft : fileTrace env changed iter fn = [] := by simp [fileTrace, hm']
      have hfc : fileContrib env changed fn = [] := by simp [fileContrib, hm']
      simp only [List.flatMap_cons, hft, hfc, List.nil_append]

theorem toolReviewCode_decomp (env : Env) (input : ToolInput) (st : AgentState)
    (xs : List JValue) (hx : st.findings = JValue.arr xs)
    (hor : ∀ fn ∈ input.files.getD (alistKeys st.changedFiles),
      ∃ t, env.reviewOracle fn = Except.ok t) :
    toolReviewCode env input st = Except.ok
      (jdump (JValue.obj
        [("findings_count", JValue.num (toString
            ((input.files.getD (alistKeys st.changedFiles)).flatMap
              (fileContrib env st.changedFiles)).length)),
         ("findings", JValue.arr
            ((input.files.getD (alistKeys st.changedFiles)).flatMap
              (fileContrib env st.changedFiles)))]),
       { st with
           findings := JValue.arr (xs ++
             (input.files.getD (alistKeys st.changedFiles)).flatMap
               (fileContrib env st.changedFiles)),
           reasoningTrace := st.reasoningTrace ++
             (input.files.getD (alistKeys st.changedFiles)).flatMap
               (fileTrace env st.changedFiles st.iteration) }) := by
  have hrf := reviewFiles_decomp env st.changedFiles st.iteration
    (input.files.getD (alistKeys st.changedFiles)) st [] rfl rfl hor
  unfold toolReviewCode
  dsimp only
  rw [hrf]
  dsimp only
  rw [hx]
  rfl

theorem reviewCode_findings_spec (env : Env) (input : ToolInput) (st : AgentState) :
    ∃ new, stateFindings (resultState (toolReviewCode env input st))
        = stateFindings st ++ new
      ∧ (resultState (toolReviewCode env input st)).changedFiles = st.changedFiles
      ∧ ∀ f ∈ new, findingFileOk st.changedFiles f := by
  cases h : reviewFiles env (input.files.getD (alistKeys st.changedFiles)) st [] with
  | error p =>
    rcases p with ⟨e, st2⟩
    obtain ⟨tr, htr⟩ :=
      (reviewFiles_spec env (input.files.getD (alistKeys st.changedFiles)) st []).1 e st2 h
    have heq : toolReviewCode env input st = Except.error (e, st2) := by
      unfold toolReviewCode
      dsimp only
      rw [h]
    refine ⟨[], ?_, ?_, by intro f hf; simp at hf⟩
    · rw [List.append_nil, heq]
      dsimp only [resultState]
      rw [htr]
      rfl
    · rw [heq]
      dsimp only [resultState]
      rw [htr]
  | ok p =>
    rcases p with ⟨st2, all⟩
    obtain ⟨⟨tr, htr⟩, new, hnew, hok⟩ :=
      (reviewFiles_spec env (input.files.getD (alistKeys st.changedFiles)) st []).2 st2 all h
    have hnew2 : all = new := by rw [hnew]; rfl
    cases hfi : st2.findings with
    | arr xs =>
      have hstf : st.findings = JValue.arr xs := by rw [htr] at hfi; exact hfi
      have hsx : stateFindings st = xs := by
        unfold stateFindings
        rw [hstf]
        rfl
      have heq : toolReviewCode env input st = Except.ok
          (jdump (JValue.obj
            [("findings_count", JValue.num (toString all.length)),
             ("findings", JValue.arr all)]),
           { st2 with findings := JValue.arr (xs ++ all) }) := by
        unfold toolReviewCode
        dsimp only
        rw [h]
        dsimp only
        rw [hfi]
      refine ⟨new, ?_, ?_, hok⟩
      · rw [heq]
        dsimp only [resultState]
        have hv : stateFindings { st2 with findings := JValue.arr (xs ++ all) }
            = xs ++ all := rfl
        rw [hv, hsx, hnew2]
      · rw [heq]
        dsimp only [resultState]
        rw [htr]
    | null =>
      have heq : toolReviewCode env input st = Except.error
          ("AttributeError: findings has no attribute extend", st2) := by
        unfold toolReviewCode
        dsimp only
        rw [h]
        dsimp only
        rw [hfi]
      have hsame : stateFindings st2 = stateFindings st := by rw [htr]; rfl
      refine ⟨[], ?_, ?_, by intro f hf; simp at hf⟩
      · rw [List.append_nil, heq]
        dsimp only [resultState]
        exact hsame
      · rw [heq]
        dsimp only [resultState]
        rw [htr]
    | bool b =>
      have heq : toolReviewCode env input st = Except.error
          ("AttributeError: findings has no attribute extend", st2) := by
        unfold toolReviewCode
        dsimp only
        rw [h]
        dsimp only
        rw [hfi]
      have hsame : stateFindings st2 = stateFindings st := by rw [htr]; rfl
      refine ⟨[], ?_, ?_, by intro f hf; simp at hf⟩
      · rw [List.append_nil, heq]
        dsimp only [resultState]
        exact hsame
      · rw [heq]
        dsimp only [resultState]
        rw [htr]
    | num s =>
      have heq : toolReviewCode env input st = Except.error
          ("AttributeError: findings has no attribute extend", st2) := by
        unfold toolReviewCode
        dsimp only
        rw [h]
        dsimp only
        rw [hfi]
      have hsame : stateFindings st2 = stateFindings st := by rw [htr]; rfl
      refine ⟨[], ?_, ?_, by intro f hf; simp at hf⟩
      · rw [List.append_nil, heq]
        dsimp only [resultState]
        exact hsame
      · rw [heq]
        dsimp only [resultState]
        rw [htr]
    | str s =>
      have heq : toolReviewCode env input st = Except.error
          ("AttributeError: findings has no attribute extend", st2) := by
        unfold toolReviewCode
        dsimp only
        rw [h]
        dsimp only
        rw [hfi]
      have hsame : stateFindings st2 = stateFindings st := by rw [htr]; rfl
      refine ⟨[], ?_, ?_, by intro f hf; simp at hf⟩
      · rw [List.append_nil, heq]
        dsimp only [resultState]
        exact hsame
      · rw [heq]
        dsimp only [resultState]
        rw [htr]
    | obj fs =>
      have heq : toolReviewCode env input st = Except.error
          ("AttributeError: findings has no attribute extend", st2) := by
        unfold toolReviewCode
        dsimp only
        rw [h]
        dsimp only
        rw [hfi]
      have hsame : stateFindings st2 = stateFindings st := by rw [htr]; rfl
      refine ⟨[], ?_, ?_, by intro f hf; simp at hf⟩
      · rw [List.append_nil, heq]
        dsimp only [resultState]
        exact hsame
      · rw [heq]
        dsimp only [resultState]
        rw [htr]

/-! ## Claim theorems -/

/-- C1: for every session (any environment and any decision oracle), the
iteration counter never exceeds maxIterations, which is 10 for a fresh
session, and the loop terminates; in particular a session whose oracle
never requests any tool call terminates by budget exhaustion after exactly
10 iterations with reviewPosted = false.  (Termination itself is by
construction: runAgent is a total function, with fuel shown exact by the
budget clause.) -/
theorem c1_loop_bounded_terminates :
    ∀ (env : Env) (oracle : List Turn → OracleResponse),
      ((runAgent env oracle).state.iteration ≤ (runAgent env oracle).state.maxIterations
        ∧ (runAgent env oracle).state.maxIterations = 10)
      ∧ ((∀ msgs, (oracle msgs).toolUses = []) →
          (runAgent env oracle).reason = TermReason.budgetExhausted
          ∧ (runAgent env oracle).state.iteration = 10
          ∧ (runAgent env oracle).state.reviewPosted = false) := by
  intro env oracle
  have hiter := runLoopAux_iter env oracle initialState.maxIterations
    [Turn.user seedMessage] initialState
  constructor
  · constructor
    · have h1 : (runAgent env oracle).state.iteration ≤
          max initialState.iteration initialState.maxIterations := hiter.1
      have h2 : (runAgent env oracle).state.maxIterations =
          initialState.maxIterations := hiter.2
      rw [h2]
      have hm : max initialState.iteration initialState.maxIterations =
          initialState.maxIterations := max_eq_right (by decide)
      rw [hm] at h1
      exact h1
    · exact hiter.2
  · intro hor
    have hnt := runLoopAux_noTools env oracle hor initialState.maxIterations
      [Turn.user seedMessage] initialState (by decide)
    refine ⟨hnt.1, ?_, hnt.2.2⟩
    exact hnt.2.1.trans (by decide)

/-- Witness for C1: the silent oracle on the minimal environment indeed
exhausts the budget at iteration 10 without posting a review. -/
theorem c1_witness :
    (∀ msgs, (silentOracle msgs).toolUses = [])
    ∧ ((runAgent env0 silentOracle).reason = TermReason.budgetExhausted
       ∧ (runAgent env0 silentOracle).state.iteration = 10
       ∧ (runAgent env0 silentOracle).state.reviewPosted = false) :=
  ⟨fun _ => rfl, (c1_loop_bounded_terminates env0 silentOracle).2 (fun _ => rfl)⟩

/-- C2: for every self_critique invocation on non-empty findings whose
oracle call returns text, if the brace span of the text parses as a JSON
object carrying a filtered_findings value, the session findings afterwards
are exactly that oracle-returned value; if extraction or json.loads fails,
the session findings are exactly the pre-critique findings — a parse
failure never discards findings. -/
theorem c2_self_critique_findings :
    ∀ (env : Env) (input : ToolInput) (st : AgentState) (text : String),
      env.critiqueOracle = Except.ok text →
      pyFalsy (input.findings.getD st.findings) = false →
      ((∀ span fs v, extractObjSpan text = some span →
          jsonLoads span = some (JValue.obj fs) →
          alistGet fs "filtered_findings" = some v →
          toolSelfCritique env input st =
            Except.ok (jdump (JValue.obj fs), { st with findings := v }))
       ∧ ((extractObjSpan text = none ∨
            ∀ span, extractObjSpan text = some span → jsonLoads span = none) →
          ∃ r st2, toolSelfCritique env input st = Except.ok (r, st2)
            ∧ st2.findings = st.findings)) := by
  intro env input st text ho hf
  constructor
  · intro span fs v hx hj hv
    simp only [toolSelfCritique, hf, ho, hx, hj, Bool.false_eq_true, if_false]
    simp [alistGetD, hv]
  · intro hfail
    cases hx : extractObjSpan text with
    | none =>
      refine ⟨critiqueFallback (input.findings.getD st.findings), st, ?_, rfl⟩
      simp [toolSelfCritique, hf, ho, hx]
    | some span =>
      have hj : jsonLoads span = none := by
        rcases hfail with h | h
        · rw [h] at hx; cases hx
        · exact h span hx
      refine ⟨critiqueFallback (input.findings.getD st.findings),
        addReasoning st "Error in self-critique", ?_, rfl⟩
      simp [toolSelfCritique, hf, ho, hx, hj]

/-- Witness for C2: a concrete parse success installs the oracle's empty
filtered set, and a concrete parse failure keeps the one stored finding. -/
theorem c2_witness :
    (toolSelfCritique envC2s {} stC2 =
      Except.ok (jdump (JValue.obj [("filtered_findings", JValue.arr [])]),
        { stC2 with findings := JValue.arr [] }))
    ∧ (∃ r st2, toolSelfCritique envC2f {} stC2 = Except.ok (r, st2)
        ∧ st2.findings = stC2.findings) :=
  ⟨(c2_self_critique_findings envC2s {} stC2 "\x7b\"filtered_findings\": []\x7d"
      rfl rfl).1 "\x7b\"filtered_findings\": []\x7d"
      [("filtered_findings", JValue.arr [])] (JValue.arr []) rfl rfl rfl,
   (c2_self_critique_findings envC2f {} stC2 "no json here" rfl rfl).2 (Or.inl rfl)⟩

/-- C8: the tool-call boundary is total: execute always returns a result
string and the state as mutated so far; an unknown tool name yields the
structured unknown-tool error result, and a tool body that raises has its
exception converted into an error string result, so no tool-input or
tool-effect error can abort the session loop. -/
theorem c8_execute_total_error_handling :
    ∀ (env : Env) (name : String) (input : ToolInput) (st : AgentState),
      (dispatchTool name = none →
        execute env name input st = (unknownToolMsg name, st))
      ∧ (∀ t e st2, dispatchTool name = some t →
          t env input st = Except.error (e, st2) →
          execute env name input st = ("Error executing " ++ name ++ ": " ++ e, st2)) := by
  intro env name input st
  constructor
  · intro h
    simp [execute, h]
  · intro t e st2 hd ht
    simp [execute, hd, ht]

/-- Witness for C8: a bogus tool name produces the unknown-tool error, and
a self_critique whose oracle call raises produces the caught-error result,
both leaving the loop able to continue. -/
theorem c8_witness :
    (dispatchTool "bogus_tool" = none
      ∧ execute env0 "bogus_tool" {} initialState = (unknownToolMsg "bogus_tool", initialState))
    ∧ (toolSelfCritique envC8 {} stC2 = Except.error ("api down", stC2)
      ∧ execute envC8 "self_critique" {} stC2 =
          ("Error executing self_critique: api down", stC2)) :=
  ⟨⟨rfl, (c8_execute_total_error_handling env0 "bogus_tool" {} initialState).1 rfl⟩,
   ⟨rfl, (c8_execute_total_error_handling envC8 "self_critique" {} stC2).2
      toolSelfCritique "api down" stC2 rfl rfl⟩⟩

/-- C9: changedFiles grows monotonically: every tool execution keeps every
existing key of changedFiles (only fetch_changed_files touches the mapping,
and dict assignment never removes keys), so the key set never shrinks
within a session. -/
theorem c9_changed_files_monotone :
    ∀ (env : Env) (name : String) (input : ToolInput) (st : AgentState) (k : String),
      k ∈ alistKeys st.changedFiles →
      k ∈ alistKeys (execute env name input st).2.changedFiles := by
  intro env name input st k hk
  exact (execute_frame env name input st).2.2 k hk

/-- Witness for C9: a stored key survives a concrete tool execution. -/
theorem c9_witness :
    "a.py" ∈ alistKeys st9.changedFiles
    ∧ "a.py" ∈ alistKeys (execute env0 "finish" {} st9).2.changedFiles :=
  ⟨by decide, c9_changed_files_monotone env0 "finish" {} st9 "a.py" (by decide)⟩

/-- C6: fetch_related_files returns without raising on any mix of valid
and invalid paths: the result lists one entry per requested path in order
(a lines entry for a success, an individual error entry for a failure, so
one path's failure is not fatal to the rest), and every successfully
fetched path is stored in relatedFiles. -/
theorem c6_fetch_related_partial :
    ∀ (env : Env) (input : ToolInput) (st : AgentState),
      ∃ st2, toolFetchRelatedFiles env input st =
          Except.ok (jdump (JValue.obj [("fetched",
            JValue.arr ((input.filePaths.getD []).map
              (relatedEntry env env.prInfo.baseSha)))]), st2)
        ∧ (∀ p ∈ input.filePaths.getD [], ∀ c,
            env.getFileContent p env.prInfo.baseSha = Except.ok c →
            alistHas st2.relatedFiles p = true)
        ∧ (∀ p e, env.getFileContent p env.prInfo.baseSha = Except.error e →
            relatedEntry env env.prInfo.baseSha p =
              JValue.obj [("path", JValue.str p), ("error", JValue.str e)]) := by
  intro env input st
  rcases hl : fetchRelatedLoop env env.prInfo.baseSha (input.filePaths.getD [])
    (addReasoning st ("Fetching related files: " ++ input.reason.getD "")) []
    with ⟨s2, fetched⟩
  obtain ⟨hsnd, r, hfst, hstored, hmono⟩ := fetchRelatedLoop_spec env env.prInfo.baseSha
    (input.filePaths.getD [])
    (addReasoning st ("Fetching related files: " ++ input.reason.getD "")) []
  rw [hl] at hsnd hfst
  have hsnd2 : fetched =
      (input.filePaths.getD []).map (relatedEntry env env.prInfo.baseSha) := by
    simpa using hsnd
  have hfst2 : s2.relatedFiles = r := by
    rw [show s2 = (s2, fetched).1 from rfl, hfst]
  refine ⟨s2, ?_, ?_, ?_⟩
  · unfold toolFetchRelatedFiles
    dsimp only
    rw [hl, hsnd2]
  · intro p hp c hc
    rw [hfst2]
    exact hstored p hp c hc
  · intro p e he
    simp [relatedEntry, he]

/-- Witness for C6: with one good and one missing path, the good one lands
in relatedFiles and both paths get their individual entries. -/
theorem c6_witness :
    ∃ st2, toolFetchRelatedFiles env6 input6 initialState =
        Except.ok (jdump (JValue.obj [("fetched",
          JValue.arr ((["good.py", "bad.py"]).map
            (relatedEntry env6 env6.prInfo.baseSha)))]), st2)
      ∧ alistHas st2.relatedFiles "good.py" = true
      ∧ relatedEntry env6 env6.prInfo.baseSha "bad.py" =
          JValue.obj [("path", JValue.str "bad.py"), ("error", JValue.str "404")] := by
  obtain ⟨st2, h1, h2, h3⟩ := c6_fetch_related_partial env6 input6 initialState
  exact ⟨st2, h1, h2 "good.py" (by decide) "x\ny" rfl, h3 "bad.py" "404" rfl⟩

theorem fetchChangedLoop_changed (ft : List String) :
    ∀ (files : List FileContent) (st : AgentState) (fetched : List JValue),
      (fetchChangedLoop ft files st fetched).1.changedFiles =
        insertContents st.changedFiles (files.filter (passesFilter ft)) := by
  intro files
  induction files with
  | nil => intro st fetched; rfl
  | cons f rest ih =>
    intro st fetched
    have hcond : (!ft.isEmpty && !ft.contains (splitextExt f.filename))
        = !(passesFilter ft f) := by
      simp [passesFilter, Bool.not_or]
    by_cases hp : passesFilter ft f = true
    · simp only [fetchChangedLoop, hcond, hp, Bool.not_true, Bool.false_eq_true, if_false]
      rw [ih]
      simp [List.filter_cons, hp, insertContents]
    · have hp2 : passesFilter ft f = false := by simpa using hp
      simp only [fetchChangedLoop, hcond, hp2, Bool.not_false, if_true]
      rw [ih]
      simp [List.filter_cons, hp2]

/-- C5 (amended): fetch_changed_files merges into changedFiles exactly the
PR files passing the extension filter; an explicitly empty filter list is
falsy, so it passes every file (all PR-changed files are fetched); but an
omitted filter argument defaults to the singleton list [".py"], so only
Python files are fetched, not all files. -/
theorem c5_fetch_changed_filter :
    ∀ (env : Env) (input : ToolInput) (st : AgentState),
      (∃ res st2, toolFetchChangedFiles env input st = Except.ok (res, st2)
        ∧ st2.changedFiles = insertContents st.changedFiles
            (env.prFileContents.filter (passesFilter (input.fileTypes.getD [".py"]))))
      ∧ (input.fileTypes = some [] →
          env.prFileContents.filter (passesFilter (input.fileTypes.getD [".py"]))
            = env.prFileContents)
      ∧ (input.fileTypes = none →
          env.prFileContents.filter (passesFilter (input.fileTypes.getD [".py"]))
            = env.prFileContents.filter (fun f => splitextExt f.filename == ".py")) := by
  intro env input st
  refine ⟨?_, ?_, ?_⟩
  · rcases hl : fetchChangedLoop (input.fileTypes.getD [".py"]) env.prFileContents st []
      with ⟨s2, fetched⟩
    refine ⟨jdump (JValue.obj [("fetched_count", JValue.num (toString fetched.length)),
      ("files", JValue.arr fetched)]), s2, ?_, ?_⟩
    · unfold toolFetchChangedFiles
      dsimp only
      rw [hl]
    · have hch := fetchChangedLoop_changed (input.fileTypes.getD [".py"])
        env.prFileContents st []
      rw [hl] at hch
      exact hch
  · intro h
    rw [h]
    simp [passesFilter]
  · intro h
    rw [h]
    apply List.filter_congr
    intro f _
    simp [passesFilter, List.contains]
    by_cases hdec : splitextExt f.filename = ".py" <;> simp [hdec]

/-- C5 counterexample: the PR changes a.py and b.js; calling
fetch_changed_files with the file_types argument omitted fetches a.py but
not b.js, so an omitted filter does not fetch all PR-changed files as the
claim states. -/
theorem c5_counterexample :
    (env5.prFileContents.map (fun f => f.filename)) = ["a.py", "b.js"]
    ∧ (∃ res st2, toolFetchChangedFiles env5 {} initialState = Except.ok (res, st2)
        ∧ alistHas st2.changedFiles "b.js" = false
        ∧ alistHas st2.changedFiles "a.py" = true) := by
  refine ⟨rfl, ?_⟩
  exact ⟨_, _, rfl, by decide, by decide⟩

/-- Witness for C5: on the same PR, the explicitly empty filter fetches
both files, and the omitted filter reduces to the Python-only filter. -/
theorem c5_witness :
    (∃ res st2, toolFetchChangedFiles env5 { fileTypes := some [] } initialState
        = Except.ok (res, st2)
      ∧ st2.changedFiles = insertContents initialState.changedFiles env5.prFileContents)
    ∧ env5.prFileContents.filter
        (passesFilter (({} : ToolInput).fileTypes.getD [".py"]))
      = env5.prFileContents.filter (fun f => splitextExt f.filename == ".py") := by
  constructor
  · obtain ⟨⟨res, st2, h1, h2⟩, hcor, -⟩ :=
      c5_fetch_changed_filter env5 { fileTypes := some [] } initialState
    exact ⟨res, st2, h1, by rw [h2, hcor rfl]⟩
  · exact (c5_fetch_changed_filter env5 {} initialState).2.2 rfl

theorem any_map_upd (q : ReviewFinding → Bool) (k : JValue) (rf : ReviewFinding)
    (hq : q rf = false) :
    ∀ groups : List (JValue × List ReviewFinding),
      ((groups.map (fun p => if jScalarEq p.1 k then (p.1, p.2 ++ [rf]) else p)).any
          (fun p => p.2.any q))
        = groups.any (fun p => p.2.any q) := by
  intro groups
  induction groups with
  | nil => rfl
  | cons p gs ih =>
    simp only [List.map_cons, List.any_cons, ih]
    congr 1
    by_cases hp : jScalarEq p.1 k = true
    · simp [hp, List.any_append, hq]
    · simp [hp]

theorem groupAdd_any (q : ReviewFinding → Bool) :
    ∀ (groups : List (JValue × List ReviewFinding)) (k : JValue) (rf : ReviewFinding),
      ((groupAdd groups k rf).any (fun p => p.2.any q))
        = (groups.any (fun p => p.2.any q) || q rf) := by
  intro groups k rf
  unfold groupAdd
  by_cases hk : (groups.any fun p => jScalarEq p.1 k) = true
  · rw [if_pos hk]
    cases hq : q rf with
    | false =>
      rw [any_map_upd q k rf hq groups]
      simp
    | true =>
      obtain ⟨p, hp, hpk⟩ := List.any_eq_true.mp hk
      have hmem : (p.1, p.2 ++ [rf]) ∈
          groups.map (fun p => if jScalarEq p.1 k then (p.1, p.2 ++ [rf]) else p) := by
        have h2 := List.mem_map_of_mem
          (fun p => if jScalarEq p.1 k then (p.1, p.2 ++ [rf]) else p) hp
        simp only [hpk, if_true] at h2
        exact h2
      have hone : ((p.1, p.2 ++ [rf]).2.any q) = true := by
        simp [List.any_append, hq]
      simp only [hq, Bool.or_true]
      exact List.any_eq_true.mpr ⟨_, hmem, hone⟩
  · rw [if_neg hk]
    simp [List.any_append]

theorem groupFindings_any (q : ReviewFinding → Bool) :
    ∀ (objs : List (List (String × JValue)))
      (groups results : List (JValue × List ReviewFinding)),
      groupFindings groups objs = Except.ok results →
      results.any (fun p => p.2.any q)
        = (groups.any (fun p => p.2.any q)
            || objs.any (fun fs => q (rawFinding fs))) := by
  intro objs
  induction objs with
  | nil =>
    intro groups results h
    simp only [groupFindings, Except.ok.injEq] at h
    subst h
    simp
  | cons fs rest ih =>
    intro groups results h
    simp only [groupFindings] at h
    by_cases hh : jHashable (alistGetD fs "file" (JValue.str "unknown")) = true
    · rw [if_pos hh] at h
      have hrec := ih _ results h
      rw [hrec, groupAdd_any]
      simp [Bool.or_assoc]
    · rw [if_neg hh] at h
      cases h

theorem any_map_results (summary : String) (q : ReviewFinding → Bool) :
    ∀ groups : List (JValue × List ReviewFinding),
      ((groups.map (fun p =>
          ({ file := p.1, findings := p.2, summary := summary } : ReviewResult))).any
        (fun r => r.findings.any q)) = groups.any (fun p => p.2.any q) := by
  intro groups
  induction groups with
  | nil => rfl
  | cons p gs ih => simp only [List.map_cons, List.any_cons, ih]

/-- C10: the recommendation argument of post_review is bound but never
used, so two invocations identical except for it publish the same review;
and the published review event is REQUEST_CHANGES exactly when some
supplied finding carries severity "error" (after the "info" default),
COMMENT otherwise. -/
theorem c10_recommendation_ignored :
    ∀ (env : Env) (input : ToolInput) (st : AgentState) (r1 r2 : Option String),
      toolPostReview env { input with recommendation := r1 } st
        = toolPostReview env { input with recommendation := r2 } st
      ∧ (∀ objs summary results,
          pyFindingObjs (input.findings.getD st.findings) = Except.ok objs →
          buildReviewResults summary objs = Except.ok results →
          (reviewEvent results = "REQUEST_CHANGES" ↔
            objs.any (fun fs =>
              jScalarEq (alistGetD fs "severity" (JValue.str "info")) (JValue.str "error"))
              = true)) := by
  intro env input st r1 r2
  constructor
  · rfl
  · intro objs summary results hobjs hres
    unfold buildReviewResults at hres
    cases hg : groupFindings [] objs with
    | error e =>
      rw [hg] at hres
      simp [Except.map] at hres
    | ok groups =>
      rw [hg] at hres
      simp only [Except.map, Except.ok.injEq] at hres
      subst hres
      have hq := groupFindings_any (fun f => jScalarEq f.severity (JValue.str "error"))
        objs [] groups hg
      have hhe : hasErrorFindings (groups.map
            (fun p => { file := p.1, findings := p.2, summary := summary }))
          = objs.any (fun fs =>
              jScalarEq (alistGetD fs "severity" (JValue.str "info")) (JValue.str "error")) := by
        unfold hasErrorFindings
        rw [any_map_results summary (fun f => jScalarEq f.severity (JValue.str "error")) groups]
        rw [hq]
        simp only [List.any_nil, Bool.false_or]
        rfl
      unfold reviewEvent
      by_cases he : hasErrorFindings (groups.map
          (fun p => { file := p.1, findings := p.2, summary := summary })) = true
      · rw [if_pos he]
        simp only [true_iff]
        rw [← hhe]
        exact he
      · rw [if_neg he]
        constructor
        · intro hcontr
          exact absurd hcontr (by decide)
        · intro hany
          exact absurd (hhe.trans hany) he

/-- Witness for C10: changing approve to request_changes leaves the
publish identical, and one error-severity finding makes the review event
REQUEST_CHANGES. -/
theorem c10_witness :
    (toolPostReview env0 { input10 with recommendation := some "approve" } initialState
      = toolPostReview env0 { input10 with recommendation := some "request_changes" }
          initialState)
    ∧ ∃ results, buildReviewResults "s" [[("severity", JValue.str "error")]]
        = Except.ok results
      ∧ reviewEvent results = "REQUEST_CHANGES" := by
  refine ⟨(c10_recommendation_ignored env0 input10 initialState
    (some "approve") (some "request_changes")).1, ?_⟩
  refine ⟨_, rfl, ?_⟩
  exact ((c10_recommendation_ignored env0 input10 initialState none none).2
    [[("severity", JValue.str "error")]] "s" _ rfl rfl).mpr (by rfl)

/-- C4 (amended): when create_review fails and the issue-comment fallback
succeeds, post_review_to_github publishes a general comment and returns a
success dict with fallback set, and tool_post_review still succeeds and
sets reviewPosted, so the session does not fail; the fallback is recorded
only in that returned dict (which the executor drops), not in the session
termination summary. -/
theorem c4_publish_fallback :
    ∀ (env : Env) (input : ToolInput) (st : AgentState) (m : String),
      (∀ b e c, env.createReview b e c = Except.error m) →
      (∀ b, env.createIssueComment b = Except.ok ()) →
      (∀ results, postReviewToGithub env results =
        Except.ok { success := true, inlineComments := 0, fallback := true,
                    published := Published.comment (env.formatReviewBody results) })
      ∧ (∀ objs results2,
          pyFindingObjs (input.findings.getD st.findings) = Except.ok objs →
          buildReviewResults (input.summary.getD "Code review completed.") objs
            = Except.ok results2 →
          toolPostReview env input st = Except.ok
            (jdump (JValue.obj
              [("success", JValue.bool true),
               ("inline_comments", JValue.num (toString 0)),
               ("summary", JValue.str (input.summary.getD "Code review completed.")),
               ("findings_count", JValue.num (toString objs.length))]),
             { st with reviewPosted := true })) := by
  intro env input st m hcr hic
  have hpost : ∀ results, postReviewToGithub env results = Except.ok
      { success := true, inlineComments := 0, fallback := true,
        published := Published.comment (env.formatReviewBody results) } := by
    intro results
    unfold postReviewToGithub
    dsimp only
    rw [hcr, hic]
  refine ⟨hpost, ?_⟩
  intro objs results2 hobjs hres
  unfold toolPostReview toolPostReviewCore
  dsimp only
  rw [hobjs]
  dsimp only
  rw [hres]
  dsimp only
  rw [hpost results2]

/-- Counterexample for C4: two sessions that post the empty review, one
with a failing create_review (fallback comment published) and one with a
succeeding create_review (no fallback): the termination summaries are
identical, so the fallback is not reported in the session termination
summary as the claim states. -/
theorem c4_counterexample :
    postReviewToGithub envC4a [] = Except.ok
      { success := true, inlineComments := 0, fallback := true,
        published := Published.comment (envC4a.formatReviewBody []) }
    ∧ postReviewToGithub env0 [] = Except.ok
      { success := true, inlineComments := 0, fallback := false,
        published := Published.review (env0.formatReviewBody []) (reviewEvent []) none }
    ∧ sessionSummary (runAgent envC4a oracleC4).state
        = sessionSummary (runAgent env0 oracleC4).state := by
  exact ⟨rfl, rfl, rfl⟩

/-- Witness for C4: on the failing-create_review environment the fallback
path publishes the comment and the post_review tool still succeeds with
reviewPosted set. -/
theorem c4_witness :
    postReviewToGithub envC4a [] = Except.ok
      { success := true, inlineComments := 0, fallback := true,
        published := Published.comment (envC4a.formatReviewBody []) }
    ∧ toolPostReview envC4a inputC4 initialState = Except.ok
        (jdump (JValue.obj
          [("success", JValue.bool true),
           ("inline_comments", JValue.num (toString 0)),
           ("summary", JValue.str "ok"),
           ("findings_count", JValue.num (toString 0))]),
         { initialState with reviewPosted := true }) := by
  have h := c4_publish_fallback envC4a inputC4 initialState "500"
    (fun _ _ _ => rfl) (fun _ => rfl)
  exact ⟨h.1 [], h.2 [] [] rfl rfl⟩

/-- C3: the claim that every finding always carries a file that was a key
of changedFiles does not hold of the program: review_code stamps its
findings with changed-files keys (second conjunct below), and every tool
but self_critique preserves the invariant outright, but tool_self_critique
installs the filtered_findings value of the critique-oracle response
without validation, so the invariant survives an execute step only under
the stated hypothesis on the critique-installed findings.  The
counterexample exhibits a reachable session state violating it. -/
theorem c3_findings_file_invariant :
    ∀ (env : Env) (name : String) (input : ToolInput) (st : AgentState),
      (findingsInvariant st →
        (name = "self_critique" →
          ∀ f ∈ jItems (critiqueInstalled env input st), findingFileOk st.changedFiles f) →
        findingsInvariant (execute env name input st).2)
      ∧ (∀ res st2, execute env "review_code" input st = (res, st2) →
          ∃ new, stateFindings st2 = stateFindings st ++ new
            ∧ st2.changedFiles = st.changedFiles
            ∧ ∀ f ∈ new, findingFileOk st2.changedFiles f) := by
  intro env name input st
  constructor
  · intro hinv hcrit
    rw [execute_snd]
    rcases hd : dispatchTool name with _ | t
    · exact hinv
    · dsimp only
      unfold dispatchTool at hd
      split_ifs at hd with h1 h2 h3 h4 h5 h6 h7
      · simp only [Option.some.injEq] at hd
        subst hd
        rw [analyze_state]
        intro f hf
        exact hinv f hf
      · simp only [Option.some.injEq] at hd
        subst hd
        obtain ⟨c, hc, hmono⟩ := fetchChanged_state env input st
        rw [hc]
        intro f hf
        obtain ⟨fn, hff, hhas⟩ := hinv f hf
        exact ⟨fn, hff, (alistHas_iff_mem_keys c fn).mpr
          (hmono fn ((alistHas_iff_mem_keys st.changedFiles fn).mp hhas))⟩
      · simp only [Option.some.injEq] at hd
        subst hd
        obtain ⟨r, tr, hr⟩ := fetchRelated_state env input st
        rw [hr]
        intro f hf
        exact hinv f hf
      · simp only [Option.some.injEq] at hd
        subst hd
        obtain ⟨new, hsf, hch, hok⟩ := reviewCode_findings_spec env input st
        intro f hf
        rw [hsf] at hf
        rw [hch]
        rcases List.mem_append.mp hf with hf | hf
        · exact hinv f hf
        · exact hok f hf
      · simp only [Option.some.injEq] at hd
        subst hd
        obtain ⟨f0, tr0, heq⟩ := critique_state env input st
        have hci : critiqueInstalled env input st = f0 := by
          unfold critiqueInstalled
          rw [heq]
        intro f hf
        rw [heq] at hf ⊢
        have hf2 : f ∈ jItems f0 := hf
        exact hcrit h5 f (hci.symm ▸ hf2)
      · simp only [Option.some.injEq] at hd
        subst hd
        rcases postReview_state env input st with hp | hp <;> rw [hp] <;>
          (intro f hf; exact hinv f hf)
      · simp only [Option.some.injEq] at hd
        subst hd
        rw [finish_state]
        intro f hf
        exact hinv f hf
  · intro res st2 hx
    have h2 : st2 = (execute env "review_code" input st).2 := by rw [hx]
    have hsnd := execute_snd env "review_code" input st
    have hdr : dispatchTool "review_code" = some toolReviewCode := by rfl
    rw [hdr] at hsnd
    obtain ⟨new, hsf, hch, hok⟩ := reviewCode_findings_spec env input st
    refine ⟨new, ?_, ?_, ?_⟩
    · rw [h2, hsnd, hsf]
    · rw [h2, hsnd, hch]
    · intro f hf
      rw [h2, hsnd, hch]
      exact hok f hf

/-- C3 counterexample: in the session of envC3 and oracleC3 the critique
oracle installs a finding whose file ghost.py was never a key of
changedFiles, so the final state violates the claimed invariant. -/
theorem c3_counterexample :
    alistHas (runAgent envC3 oracleC3).state.changedFiles "ghost.py" = false
    ∧ alistHas (runAgent envC3 oracleC3).state.changedFiles "a.py" = true
    ∧ stateFindings (runAgent envC3 oracleC3).state
        = [JValue.obj [("file", JValue.str "ghost.py")]]
    ∧ ¬ findingsInvariant (runAgent envC3 oracleC3).state := by
  refine ⟨rfl, rfl, rfl, ?_⟩
  intro hinv
  have hsf : stateFindings (runAgent envC3 oracleC3).state
      = [JValue.obj [("file", JValue.str "ghost.py")]] := rfl
  have hm : JValue.obj [("file", JValue.str "ghost.py")]
      ∈ stateFindings (runAgent envC3 oracleC3).state := by
    rw [hsf]
    exact List.mem_singleton.mpr rfl
  obtain ⟨fn, hf, hhas⟩ := hinv _ hm
  have hf0 : findingFile (JValue.obj [("file", JValue.str "ghost.py")])
      = some (JValue.str "ghost.py") := rfl
  rw [hf0] at hf
  injection hf with h1
  injection h1 with h2
  subst h2
  have hfalse : alistHas (runAgent envC3 oracleC3).state.changedFiles "ghost.py"
      = false := rfl
  rw [hfalse] at hhas
  exact Bool.noConfusion hhas

/-- C3 witness: a fetch_changed_files step from the fresh state preserves
the (amended) invariant, its two hypotheses discharged concretely. -/
theorem c3_witness :
    findingsInvariant (execute env5 "fetch_changed_files" {} initialState).2 :=
  (c3_findings_file_invariant env5 "fetch_changed_files" {} initialState).1
    (fun f hf => absurd hf (List.not_mem_nil f))
    (fun h => absurd h (by decide))

/-- C7: the extraction is not of the first well-formed JSON array
substring: the pattern matches greedily from the first opening bracket to
the last closing bracket of the whole response, so trailing prose holding
a bracket breaks the parse (see the counterexample).  Amended statement:
(1) when no opening bracket precedes the span and no closing bracket
follows it, the span is extracted exactly, so leading prose is tolerated;
(2) under an everywhere-answering review oracle, review_code appends
exactly the independent per-file contributions and per-file trace entries,
so every file of the invocation is processed; (3) a file whose extracted
span fails json.loads contributes zero findings and exactly one non-fatal
reasoning-trace entry. -/
theorem c7_review_parse :
    (∀ pre span post : String,
      pre.data.all (fun c => !(c == '[')) = true →
      post.data.all (fun c => !(c == ']')) = true →
      span.data.head? = some '[' →
      span.data.getLast? = some ']' →
      extractArraySpan (pre ++ span ++ post) = some span)
    ∧ (∀ (env : Env) (input : ToolInput) (st : AgentState) (xs : List JValue),
      st.findings = JValue.arr xs →
      (∀ fn ∈ input.files.getD (alistKeys st.changedFiles),
        ∃ t, env.reviewOracle fn = Except.ok t) →
      toolReviewCode env input st = Except.ok
        (jdump (JValue.obj
          [("findings_count", JValue.num (toString
              ((input.files.getD (alistKeys st.changedFiles)).flatMap
                (fileContrib env st.changedFiles)).length)),
           ("findings", JValue.arr
              ((input.files.getD (alistKeys st.changedFiles)).flatMap
                (fileContrib env st.changedFiles)))]),
         { st with
             findings := JValue.arr (xs ++
               (input.files.getD (alistKeys st.changedFiles)).flatMap
                 (fileContrib env st.changedFiles)),
             reasoningTrace := st.reasoningTrace ++
               (input.files.getD (alistKeys st.changedFiles)).flatMap
                 (fileTrace env st.changedFiles st.iteration) }))
    ∧ (∀ (env : Env) (changed : List (String × String)) (iter : Nat)
        (fn text span : String),
      alistHas changed fn = true →
      env.reviewOracle fn = Except.ok text →
      extractArraySpan text = some span →
      jsonLoads span = none →
      fileContrib env changed fn = []
      ∧ fileTrace env changed iter fn = [(iter, "Error parsing review for " ++ fn)]) := by
  refine ⟨extractArraySpan_embed, ?_, ?_⟩
  · intro env input st xs hx hor
    exact toolReviewCode_decomp env input st xs hx hor
  · intro env changed iter fn text span hm ho hx hj
    have hp : parseReviewResponse fn text = ([], true) := by
      rw [parseReviewResponse_eq_some fn text span hx, hj]
    constructor
    · simp [fileContrib, hm, ho, hp]
    · simp [fileTrace, hm, ho, hp]

/-- C7 counterexample: the response respC7 contains the well-formed
findings array (its first bracketed substring, holding one finding), but
the greedy span runs to the closing bracket inside the trailing prose and
fails json.loads, so review_code yields zero findings for the file instead
of that one finding. -/
theorem c7_counterexample :
    jsonLoads "[\x7b\"severity\": \"info\"\x7d]"
      = some (JValue.arr [JValue.obj [("severity", JValue.str "info")]])
    ∧ respC7 = "[\x7b\"severity\": \"info\"\x7d]" ++ " (see [2])"
    ∧ extractArraySpan respC7 = some "[\x7b\"severity\": \"info\"\x7d] (see [2]"
    ∧ jsonLoads "[\x7b\"severity\": \"info\"\x7d] (see [2]" = none
    ∧ toolReviewCode envC7 { files := some ["a.py"] } st9 = Except.ok
        (jdump (JValue.obj
          [("findings_count", JValue.num "0"), ("findings", JValue.arr [])]),
         { st9 with reasoningTrace := [(0, "Error parsing review for a.py")] }) :=
  ⟨rfl, rfl, rfl, rfl, rfl⟩

/-- C7 witness: the scenario of the claim, at the amended extraction law:
a response of leading prose around one well-formed findings array yields
exactly that finding, stamped with file a.py. -/
theorem c7_witness :
    extractArraySpan ("Sure! " ++ spanC7 ++ "") = some spanC7
    ∧ toolReviewCode envC7w { files := some ["a.py"] } st9 = Except.ok
        (jdump (JValue.obj
          [("findings_count", JValue.num "1"),
           ("findings", JValue.arr [findingC7])]),
         { st9 with findings := JValue.arr [findingC7] }) := by
  constructor
  · exact c7_review_parse.1 "Sure! " spanC7 "" rfl rfl rfl rfl
  · have h := c7_review_parse.2.1 envC7w { files := some ["a.py"] } st9 [] rfl
      (by intro fn hfn
          have hfn2 : fn ∈ ["a.py"] := hfn
          have he : fn = "a.py" := by simpa using hfn2
          subst he
          exact ⟨respC7w, rfl⟩)
    exact h.trans (by rfl)
